import Mathlib

/-!
Verification development for the `byo-bundler` repository (src/unnamed/part_000,
the full bundler: module cache, JS + CSS loaders, node_modules resolution,
runtime assembly, HTML template).

The JavaScript source is embedded shallowly:

* JS strings are Lean `String`s; `Array.prototype.join`, `String.prototype.split`,
  `path.extname`, `path.dirname`, `path.join` (with normalization) are modelled
  by executable Lean functions below.
* The module cache (`MODULE_CACHE`, a mutable `Map`) is explicit state threaded
  through `createModule`.  Recursive graph loading is written with explicit
  fuel; fuel exhaustion is a distinguished outcome (`BuildErr.outOfFuel`), so
  termination claims become "enough fuel never exhausts".
* JS object identity for `Module` instances is represented by the canonical
  path used as the cache key: the cache never overwrites an existing entry, so
  within one cache a path denotes one instance.  `dependencies` (an array of
  Module references in JS) is stored as the list of cache keys of those
  modules.
* Exceptions (`throw new Error(...)`, failing `fs.readFileSync`,
  `babel.parseSync`, `require.resolve`) are `Except BuildErr`; because JS
  exceptions do not roll back mutations, functions return the cache alongside
  the `Except` result.
* The external collaborators (filesystem, babel parser, Node package
  resolution inside a single candidate directory) are fields of `Env`, so all
  definitions stay executable once an `Env` is instantiated.
-/

namespace Bundler

/-! ## Character-list string utilities (models of the JS string primitives) -/

/-- Decides whether `p` occurs at the front of `s` (character lists). -/
def listIsPre : List Char → List Char → Bool
  | [], _ => true
  | _ :: _, [] => false
  | a :: as, b :: bs => a = b && listIsPre as bs

/-- Substring test: `sub` occurs somewhere inside `s`. -/
def strContains (s sub : String) : Bool :=
  (List.range (s.data.length + 1)).any (fun i => listIsPre sub.data (s.data.drop i))

/-- Model of JS `String.prototype.split(c)` for a one-character separator:
splits into the (possibly empty) chunks between occurrences of `c`. -/
def splitOnChar (c : Char) : List Char → List (List Char)
  | [] => [[]]
  | x :: xs =>
    let r := splitOnChar c xs
    if x = c then [] :: r
    else
      match r with
      | h :: t => (x :: h) :: t
      | [] => [[x]]

/-- Model of JS `Array.prototype.join(sep)`. -/
def joinSep (sep : String) : List String → String
  | [] => ""
  | [x] => x
  | x :: xs => x ++ sep ++ joinSep sep (xs)

/-- Character-list join used by `trimSource`. -/
def joinSepL (c : Char) : List (List Char) → List Char
  | [] => []
  | [x] => x
  | x :: xs => x ++ c :: joinSepL c (xs)

/-- Model of JS `String.prototype.split('/')` on a `String`. -/
def splitSlash (s : String) : List String :=
  (splitOnChar '/' s.data).map (fun l => ⟨l⟩)

/-- Index of the last occurrence of `c`, if any. -/
def lastIdxOf (c : Char) : List Char → Option Nat
  | [] => none
  | x :: xs =>
    match lastIdxOf c xs with
    | some i => some (i + 1)
    | none => if x = c then some 0 else none

/-- Model of Node `path.extname`: the suffix of the basename from its last dot,
empty for dotfiles and extensionless names. -/
def extname (p : String) : String :=
  let base :=
    match lastIdxOf '/' p.data with
    | none => p.data
    | some i => p.data.drop (i + 1)
  match lastIdxOf '.' base with
  | none => ""
  | some 0 => ""
  | some i => ⟨base.drop i⟩

/-- Model of Node `path.dirname` (for paths without a trailing separator). -/
def dirname (p : String) : String :=
  match lastIdxOf '/' p.data with
  | none => "."
  | some 0 => "/"
  | some i => ⟨p.data.take i⟩

/-- Path-segment normalization stack: drops empty and `.` segments and lets
`..` cancel the preceding segment (absolute paths discard excess `..`). -/
def normalizeSegs (abs : Bool) : List String → List String → List String
  | stack, [] => stack.reverse
  | stack, s :: rest =>
    if s = "" || s = "." then normalizeSegs abs stack rest
    else if s = ".." then
      match stack with
      | [] => if abs then normalizeSegs abs [] rest else normalizeSegs abs [".."] rest
      | t :: st => if t = ".." then normalizeSegs abs (".." :: t :: st) rest else normalizeSegs abs st rest
    else normalizeSegs abs (s :: stack) rest

/-- Tests whether a path string starts with the separator. -/
def startsSlash (p : String) : Bool := p.data.head? = some '/'

/-- Model of Node `path.normalize` on slash-separated paths. -/
def normalizePath (p : String) : String :=
  let abs := startsSlash p
  let segs := normalizeSegs abs [] (splitSlash p)
  if abs then (if segs = [] then "/" else "/" ++ joinSep "/" segs)
  else (if segs = [] then "." else joinSep "/" segs)

/-- Model of Node `path.join(a, b)`: concatenate with a separator, then
normalize. -/
def pathJoin (a b : String) : String := normalizePath (a ++ "/" ++ b)

/-- Whitespace test for the `trim` helper (JS `\s`, restricted to characters
that can occur inside a split line, i.e. everything but `\n`). -/
def isWsChar (c : Char) : Bool :=
  c = ' ' || c = '\t' || c = '\r' || c = '\x0b' || c = '\x0c'

/-- Number of leading whitespace characters, modelling
`line.length - line.trimLeft().length`. -/
def countLeadWs : List Char → Nat
  | [] => 0
  | c :: cs => if isWsChar c then countLeadWs cs + 1 else 0

/-- Model of `line.replace(new RegExp(s), '')` for `s` matching exactly `n`
leading whitespace characters: strips them when present, else leaves the line. -/
def stripPadL (n : Nat) (l : List Char) : List Char :=
  if (l.take n).all isWsChar && decide (n ≤ l.length) then l.drop n else l

/-- Model of the source's `trim` helper: split on newlines, drop empty lines,
measure the first line's indentation, strip that indentation where present. -/
def trimSource (s : String) : String :=
  let lines := (splitOnChar '\n' s.data).filter (· ≠ [])
  match lines with
  | [] => ""
  | l0 :: _ =>
    let pad := countLeadWs l0
    ⟨joinSepL '\n' (lines.map (stripPadL pad))⟩

/-- Model of JS `String.prototype.replace(pat, rep)` with a string pattern:
replaces the first occurrence only. -/
def replaceFirstL (pat rep : List Char) : List Char → List Char
  | [] => if pat = [] then rep else []
  | c :: cs =>
    if listIsPre pat (c :: cs) then rep ++ (c :: cs).drop pat.length
    else c :: replaceFirstL pat rep cs

/-- String-level wrapper of `replaceFirstL`. -/
def replaceFirst (s pat rep : String) : String :=
  ⟨replaceFirstL pat.data rep.data s.data⟩

/-- Model of `this.content.replace(/\n/g, '')`: remove every newline. -/
def stripNewlines (s : String) : String := ⟨s.data.filter (· ≠ '\n')⟩

/-! ## Front-end tree model

The babel AST is embedded as a small expression/statement tree covering the
node kinds the bundler's plugin manipulates.  Identifier occurrences in
expression position model babel `referencePaths`; binder positions (import
specifiers, declared names, non-computed member properties) are not
references.  Babel's scope analysis is modelled as capture-free substitution,
which agrees with it on programs that do not shadow or assign imported
bindings (the well-formedness hypotheses of the theorems below). -/

inductive Expr where
  | ident (name : String)
  | strLit (s : String)
  | numLit (n : Int)
  | member (obj : Expr) (prop : Expr) (computed : Bool)
  | call (callee : Expr) (args : List Expr)
  | assign (lhs : Expr) (rhs : Expr)

/-- Import specifier: `ImportDefaultSpecifier` or a named `ImportSpecifier`. -/
inductive ImportSpec where
  | importDefault (localName : String)
  | importNamed (importedName : String) (localName : String)

/-- Top-level statement forms of the embedded program body. -/
inductive TopStmt where
  | importDecl (specifiers : List ImportSpec) (source : String)
  | exportDefaultDecl (expr : Expr)
  | exportNamedDecl (decls : List (String × Expr))
  | exportSpecifiers (specs : List (String × String))
  | varDecl (declKind : String) (name : String) (init : Expr)
  | exprStmt (expr : Expr)

/-- Program: the `ast.program.body` statement list. -/
structure Program where
  body : List TopStmt

/-- Local binding name introduced by an import specifier. -/
def specLocal : ImportSpec → String
  | .importDefault l => l
  | .importNamed _ l => l

/-- Property key the transform reads for a specifier: `'default'` for a
default import, otherwise the imported name. -/
def specKey : ImportSpec → String
  | .importDefault _ => "default"
  | .importNamed imp _ => imp

/-- Import declarations of a program, in source order. -/
def importsOf (prog : Program) : List (List ImportSpec × String) :=
  prog.body.filterMap fun s =>
    match s with
    | .importDecl sp src => some (sp, src)
    | _ => none

/-- Import specifier source strings, in source order. -/
def importSources (prog : Program) : List String :=
  (importsOf prog).map (·.2)

/-- Local names bound by all import declarations. -/
def importLocals (prog : Program) : List String :=
  (importsOf prog).foldr (fun ip acc => ip.1.map specLocal ++ acc) []

/-- Model of `path.scope.generateUidIdentifier('imported')`: babel produces
`_imported`, `_imported2`, `_imported3`, ... for successive calls. -/
def uidName (i : Nat) : String :=
  if i = 0 then "_imported" else "_imported" ++ toString (i + 1)

/-- Substitution environment built from the import declarations: each local
name maps to a computed member access `uid["key"]` on its import's uid. -/
def importSubstFrom : List (List ImportSpec × String) → Nat → List (String × Expr)
  | [], _ => []
  | (specs, _) :: rest, i =>
    specs.map (fun sp =>
      (specLocal sp, Expr.member (.ident (uidName i)) (.strLit (specKey sp)) true))
      ++ importSubstFrom rest (i + 1)

/-- Substitution environment of a whole program. -/
def importSubst (prog : Program) : List (String × Expr) :=
  importSubstFrom (importsOf prog) 0

mutual
/-- Capture-free substitution on expressions, modelling the
`referencePath.replaceWith(...)` rewrites: identifier references are replaced,
non-computed member properties are not references. -/
def substExpr (σ : List (String × Expr)) : Expr → Expr
  | .ident n =>
    match σ.find? (·.1 = n) with
    | some e => e.2
    | none => .ident n
  | .strLit s => .strLit s
  | .numLit v => .numLit v
  | .member o pr comp => .member (substExpr σ o) (if comp then substExpr σ pr else pr) comp
  | .call f args => .call (substExpr σ f) (substList σ args)
  | .assign l r => .assign (substExpr σ l) (substExpr σ r)

/-- Substitution mapped over argument lists. -/
def substList (σ : List (String × Expr)) : List Expr → List Expr
  | [] => []
  | e :: es => substExpr σ e :: substList σ es
end

/-- Substitution on a statement's expression positions (import specifiers and
declared names are binders, not references). -/
def substStmt (σ : List (String × Expr)) : TopStmt → TopStmt
  | .importDecl sp src => .importDecl sp src
  | .exportDefaultDecl e => .exportDefaultDecl (substExpr σ e)
  | .exportNamedDecl ds => .exportNamedDecl (ds.map fun d => (d.1, substExpr σ d.2))
  | .exportSpecifiers sp => .exportSpecifiers sp
  | .varDecl k n init => .varDecl k n (substExpr σ init)
  | .exprStmt e => .exprStmt (substExpr σ e)

/-- Model of the `ExportDefaultDeclaration` / `ExportNamedDeclaration` visitor
cases: each export becomes assignments onto the `exports` object
(`path.replaceWith` / `path.replaceWithMultiple`). -/
def rewriteExport : TopStmt → List TopStmt
  | .exportDefaultDecl e =>
    [.exprStmt (.assign (.member (.ident "exports") (.ident "default") false) e)]
  | .exportNamedDecl ds =>
    ds.map fun d => .exprStmt (.assign (.member (.ident "exports") (.ident d.1) false) d.2)
  | .exportSpecifiers sp =>
    sp.map fun p => .exprStmt (.assign (.member (.ident "exports") (.ident p.1) false) (.ident p.2))
  | s => [s]

/-- Model of the plugin pass over the body: the `i`-th import declaration (in
the import order) becomes `const uid_i = require(source)` (`path.replaceWith` in
`ImportDeclaration` case), references to imported locals are substituted, and
export declarations are rewritten. -/
def rewriteStmts (σ : List (String × Expr)) : List TopStmt → Nat → List TopStmt
  | [], _ => []
  | .importDecl _ src :: rest, i =>
    .varDecl "const" (uidName i) (.call (.ident "require") [.strLit src])
      :: rewriteStmts σ rest (i + 1)
  | s :: rest, i => rewriteExport (substStmt σ s) ++ rewriteStmts σ rest i

/-- Whole-program model of the babel plugin in `transformModuleInterface`. -/
def transformProgram (prog : Program) : Program :=
  ⟨rewriteStmts (importSubst prog) prog.body 0⟩

mutual
/-- Code generation for expressions (model of babel's `code` output; the exact
concrete syntax is not load-bearing for any claim). -/
def printExpr : Expr → String
  | .ident n => n
  | .strLit s => "\"" ++ s ++ "\""
  | .numLit n => toString n
  | .member o pr comp =>
    printExpr o ++ (if comp then "[" ++ printExpr pr ++ "]" else "." ++ printExpr pr)
  | .call f args => printExpr f ++ "(" ++ joinSep ", " (printList args) ++ ")"
  | .assign l r => printExpr l ++ " = " ++ printExpr r

/-- Code generation mapped over argument lists. -/
def printList : List Expr → List String
  | [] => []
  | e :: es => printExpr e :: printList es
end

/-- Code generation for statements. -/
def printStmt : TopStmt → String
  | .importDecl _ src => "import \"" ++ src ++ "\";"
  | .exportDefaultDecl e => "export default " ++ printExpr e ++ ";"
  | .exportNamedDecl ds =>
    "export const " ++ joinSep ", " (ds.map fun d => d.1 ++ " = " ++ printExpr d.2) ++ ";"
  | .exportSpecifiers sp =>
    "export \x7b " ++ joinSep ", " (sp.map fun p => p.2 ++ " as " ++ p.1) ++ " \x7d;"
  | .varDecl k n init => k ++ " " ++ n ++ " = " ++ printExpr init ++ ";"
  | .exprStmt e => printExpr e ++ ";"

/-- Code generation for a program body. -/
def printProgram (p : Program) : String :=
  joinSep "\n" (p.body.map printStmt)

/-! ## Modules, cache, resolver, graph builder (src/unnamed/part_000) -/

/-- Module kind, i.e. which `MODULE_LOADERS` class handles the file. -/
inductive ModuleKind where
  | js
  | css
deriving DecidableEq

/-- One loaded `Module`: canonical path, current content, parsed form and the
dependency list (stored as the cache keys of the dependency modules, which is
how JS object references are represented here). -/
structure Module where
  kind : ModuleKind
  filePath : String
  content : String
  prog : Program
  deps : List String

/-- Build-time failures (JS exceptions).  `unsupported` carries the exact
`Error` message thrown by `createModule`; read/parse/resolution failures carry
the structured context of the failing collaborator call; `invalidArg` models a
JS `TypeError` such as `fs.readFileSync(undefined)`; `outOfFuel` marks
exhaustion of the explicit recursion fuel (i.e. would-be divergence). -/
inductive BuildErr where
  | unsupported (message : String)
  | ioError (path : String)
  | parseError (path : String)
  | resolveError (requester specifier : String)
  | invalidArg
  | outOfFuel
deriving DecidableEq

/-- Message of the `throw new Error(...)` in `createModule`. -/
def unsupportedMsg (fileExtension : String) : String :=
  "Unsupported extension \"" ++ fileExtension ++ "\"."

/-- External collaborators: the filesystem (`fs.readFileSync`), the front-end
parser (`babel.parseSync`) and the platform's per-directory package resolution
(one `node_modules` candidate directory at a time). -/
structure Env where
  fs : List (String × String)
  parse : String → Option Program
  pkgResolve : String → String → Option String

/-- Model of `fs.readFileSync(p, 'utf-8')`: `none` is a read failure. -/
def envRead (env : Env) (p : String) : Option String :=
  (env.fs.find? (·.1 = p)).map (·.2)

/-- Paths that exist in the modelled filesystem. -/
def fsPaths (env : Env) : List String := env.fs.map (·.1)

/-- The `MODULE_CACHE` map, keyed by canonical path. -/
abbrev Cache := List (String × Module)

/-- Model of `MODULE_CACHE.has(p)`. -/
def cacheHas (c : Cache) (p : String) : Bool := c.any (·.1 = p)

/-- Model of `MODULE_CACHE.get(p)`. -/
def cacheGet (c : Cache) (p : String) : Option Module :=
  (c.find? (·.1 = p)).map (·.2)

/-- Model of `MODULE_CACHE.set(p, m)`: overwrite in place if present, else
append (JS `Map` preserves insertion order). -/
def cacheSet (c : Cache) (p : String) (m : Module) : Cache :=
  if c.any (·.1 = p) then c.map (fun kv => if kv.1 = p then (p, m) else kv)
  else c ++ [(p, m)]

/-- Candidate `node_modules` directories, modelling the source's loop
`for (let i = requesterParts.length - 1; i > 0; i--)` pushing
`requesterParts.slice(0, i).join('/') + '/node_modules'`. -/
def requestPathsFor (parts : List String) : Nat → List String
  | 0 => []
  | i + 1 => (joinSep "/" (parts.take (i + 1)) ++ "/node_modules") :: requestPathsFor parts i

/-- Modelled from the spec: Node `require.resolve(request, { paths })` — code
of the host platform, not of this repository — tries the candidate directories
in order and returns the first match of the platform's per-directory package
resolution (`Env.pkgResolve`). -/
def requireResolve (env : Env) (requestPath : String) (paths : List String) : Option String :=
  paths.findSome? (fun d => env.pkgResolve d requestPath)

/-- Model of `resolveRequest(requester, requestPath)`. -/
def resolveRequest (env : Env) (requester requestPath : String) : Option String :=
  if requestPath.data.head? = some '.' then
    some (pathJoin (dirname requester) requestPath)
  else
    let requesterParts := splitSlash requester
    requireResolve env requestPath (requestPathsFor requesterParts (requesterParts.length - 1))

/-- Registered loaders (`MODULE_LOADERS`), dispatched by file extension. -/
def MODULE_LOADERS (fileExtension : String) : Option ModuleKind :=
  if fileExtension = ".css" then some .css
  else if fileExtension = ".js" then some .js
  else none

/-- The `CSSModule.transform` template literal passed to `trim`, with the
newline-stripped stylesheet text spliced in. -/
def cssTemplate (t : String) : String :=
  "\n      const content = \x27" ++ t ++ "\x27;"
    ++ "\n      const style = document.createElement(\x27style\x27);"
    ++ "\n      style.type = \x27text/css\x27;"
    ++ "\n      if (style.styleSheet) style.styleSheet.cssText = content;"
    ++ "\n      else style.appendChild(document.createTextNode(content));"
    ++ "\n      document.head.appendChild(style);"
    ++ "\n    "

/-- Model of `CSSModule.transform`: the style-injection script produced from
the raw stylesheet content. -/
def cssTransform (rawContent : String) : String :=
  trimSource (cssTemplate (stripNewlines rawContent))

/-- Model of `findDependencies`' side effect on the tree: each import
declaration's source is overwritten with its resolved path
(`importDeclaration.source.value = resolvedPath`). -/
def rewriteSources (env : Env) (self : String) (prog : Program) : Program :=
  ⟨prog.body.map fun s =>
    match s with
    | .importDecl sp src => .importDecl sp ((resolveRequest env self src).getD src)
    | s => s⟩

/-- Dependency-loading loop of `findDependencies`, parameterized by the
recursive `createModule` call: resolve each import in order and load it,
accumulating the loaded modules (as cache keys). -/
def loadDepsWith (rec : String → Cache → Cache × Except BuildErr String)
    (env : Env) (self : String) :
    List String → Cache → List String → Cache × Except BuildErr (List String)
  | [], c, acc => (c, .ok acc.reverse)
  | src :: rest, c, acc =>
    match resolveRequest env self src with
    | none => (c, .error (.resolveError self src))
    | some rp =>
      match rec rp c with
      | (c1, .ok key) => loadDepsWith rec env self rest c1 (key :: acc)
      | (c1, .error e) => (c1, .error e)

/-- Model of `createModule` with explicit fuel: return the cached module if
present; otherwise dispatch on the extension, construct the module (read,
kind-specific transform/parse), insert it into the cache, and only then load
its dependencies (`module.initDependencies()`), finally recording the resolved
sources and dependency list on the cached module. -/
def createModule (env : Env) : Nat → String → Cache → Cache × Except BuildErr String
  | 0, _, c => (c, .error .outOfFuel)
  | fuel + 1, filePath, c =>
    if cacheHas c filePath then (c, .ok filePath)
    else
      match MODULE_LOADERS (extname filePath) with
      | none => (c, .error (.unsupported (unsupportedMsg (extname filePath))))
      | some .css =>
        match envRead env filePath with
        | none => (c, .error (.ioError filePath))
        | some raw =>
          (cacheSet c filePath ⟨.css, filePath, cssTransform raw, ⟨[]⟩, []⟩, .ok filePath)
      | some .js =>
        match envRead env filePath with
        | none => (c, .error (.ioError filePath))
        | some raw =>
          match env.parse raw with
          | none => (c, .error (.parseError filePath))
          | some prog =>
            let c1 := cacheSet c filePath ⟨.js, filePath, raw, prog, []⟩
            match loadDepsWith (createModule env fuel) env filePath (importSources prog) c1 [] with
            | (c2, .error e) => (c2, .error e)
            | (c2, .ok deps) =>
              (cacheSet c2 filePath ⟨.js, filePath, raw, rewriteSources env filePath prog, deps⟩,
                .ok filePath)

/-- Model of `createDependencyGraph`. -/
def createDependencyGraph (env : Env) (fuel : Nat) (entryFile : String) (c : Cache) :
    Cache × Except BuildErr String :=
  createModule env fuel entryFile c

/-- Dependency keys of a cached module (empty if the key is absent). -/
def depsOf (c : Cache) (p : String) : List String :=
  ((cacheGet c p).map (·.deps)).getD []

/-- Iteration of the inner `collect` over a dependency list, parameterized by
the recursive call. -/
def collectSeq (rec : String → List String → Option (List String)) :
    List String → List String → Option (List String)
  | [], vis => some vis
  | d :: ds, vis =>
    match rec d vis with
    | none => none
    | some vis1 => collectSeq rec ds vis1

/-- Model of `collectModules`' inner `collect`: skip visited modules, else mark
visited and recurse into the dependencies (the visited set doubles as the
insertion-ordered result, like the JS `Set`). -/
def collect (deps : String → List String) : Nat → String → List String → Option (List String)
  | 0, _, _ => none
  | fuel + 1, m, vis =>
    if m ∈ vis then some vis
    else collectSeq (collect deps fuel) (deps m) (vis ++ [m])

/-- Model of `collectModules(graph)`. -/
def collectModules (c : Cache) (fuel : Nat) (root : String) : Option (List String) :=
  collect (depsOf c) fuel root []

/-- Model of the babel plugin application in `JSModule.transformModuleInterface`
(the base `Module.transformModuleInterface` is a no-op, which is what CSS
modules use). -/
def transformModuleInterface (m : Module) : Module :=
  match m.kind with
  | .css => m
  | .js =>
    let prog := transformProgram m.prog
    { m with prog := prog, content := printProgram prog }

/-- One serialized entry of the module map:
`"<path>": function(exports, require) { <content>\n },`. -/
def moduleMapEntry (p content : String) : String :=
  "\"" ++ p ++ "\": function(exports, require) \x7b " ++ content ++ "\n \x7d,"

/-- Body of `toModuleMap`'s loop: transform each module (mutating the cached
module) and append its serialized entry. -/
def toModuleMapGo : List String → Cache → Option (Cache × String)
  | [], c => some (c, "")
  | p :: rest, c =>
    match cacheGet c p with
    | none => none
    | some m =>
      let m1 := transformModuleInterface m
      let c1 := cacheSet c p m1
      match toModuleMapGo rest c1 with
      | none => none
      | some (c2, s) => some (c2, moduleMapEntry p m1.content ++ s)

/-- Model of `toModuleMap(modules)`. -/
def toModuleMap (mods : List String) (c : Cache) : Option (Cache × String) :=
  (toModuleMapGo mods c).map (fun r => (r.1, "\x7b" ++ r.2 ++ "\x7d"))

/-- Model of `addRuntime(moduleMap, entryPoint)`: the runtime preamble template
passed to `trim`, with the module map and entry path spliced in. -/
def addRuntime (moduleMap entryPoint : String) : String :=
  trimSource ("\n    const modules = " ++ moduleMap ++ ";"
    ++ "\n    const entry = \"" ++ entryPoint ++ "\";"
    ++ "\n    function webpackStart(\x7b modules, entry \x7d) \x7b"
    ++ "\n      const moduleCache = \x7b\x7d;"
    ++ "\n      const require = moduleName => \x7b"
    ++ "\n        // if in cache, return the cached version"
    ++ "\n        if (moduleCache[moduleName]) \x7b"
    ++ "\n          return moduleCache[moduleName];"
    ++ "\n        \x7d"
    ++ "\n        const exports = \x7b\x7d;"
    ++ "\n        // this will prevent infinite \"require\" loop"
    ++ "\n        // from circular dependencies"
    ++ "\n        moduleCache[moduleName] = exports;"
    ++ "\n    "
    ++ "\n        // \"require\"-ing the module,"
    ++ "\n        // exported stuff will assigned to \"exports\""
    ++ "\n        modules[moduleName](exports, require);"
    ++ "\n        return moduleCache[moduleName];"
    ++ "\n      \x7d;"
    ++ "\n    "
    ++ "\n      // start the program"
    ++ "\n      require(entry);"
    ++ "\n    \x7d"
    ++ "\n"
    ++ "\n    webpackStart(\x7b modules, entry \x7d);"
    ++ "\n    ")

/-- One named output artifact. -/
structure OutputFile where
  name : String
  content : String

/-- Model of `bundle(graph)`: collect the reachable module set, serialize the
module map (transforming each module), and wrap it with the runtime, keyed by
the first collected module's path. -/
def bundle (c : Cache) (fuel : Nat) (root : String) :
    Except BuildErr (Cache × List OutputFile) :=
  match collectModules c fuel root with
  | none => .error .outOfFuel
  | some modules =>
    match toModuleMap modules c with
    | none => .error .invalidArg
    | some (c1, moduleMap) =>
      match modules with
      | [] => .error .invalidArg
      | m0 :: _ => .ok (c1, [⟨"bundle.js", addRuntime moduleMap m0⟩])

/-- The `<script>` tags appended before the closing body tag, one per output
file, in emission order (`outputFiles.map(...).join('')`). -/
def scriptTagsFor (outputFiles : List OutputFile) : String :=
  joinSep "" (outputFiles.map (fun f => "<script src=\"/" ++ f.name ++ "\"></script>"))

/-- Model of `generateHTMLTemplate`: read the template (a missing argument is
the JS `TypeError` from `fs.readFileSync(undefined)`), then replace the first
`</body>` with the script tags followed by `</body>`. -/
def generateHTMLTemplate (env : Env) (htmlTemplatePath : Option String)
    (outputFiles : List OutputFile) : Except BuildErr OutputFile :=
  match htmlTemplatePath with
  | none => .error .invalidArg
  | some tp =>
    match envRead env tp with
    | none => .error (.ioError tp)
    | some tpl =>
      .ok ⟨"index.html", replaceFirst tpl "</body>" (scriptTagsFor outputFiles ++ "</body>")⟩

/-- Arguments of `build({ entryFile, outputFolder, htmlTemplatePath })`. -/
structure BuildInput where
  entryFile : String
  outputFolder : String
  htmlTemplatePath : Option String

/-- Model of `build`: construct the graph, bundle it, generate the HTML
artifact (unconditionally), then hand the artifact list to the writer.  Any
failure aborts before the write loop. -/
def build (env : Env) (fuel : Nat) (input : BuildInput) (c : Cache) :
    Cache × Except BuildErr (List OutputFile) :=
  match createDependencyGraph env fuel input.entryFile c with
  | (c1, .error e) => (c1, .error e)
  | (c1, .ok root) =>
    match bundle c1 fuel root with
    | .error e => (c1, .error e)
    | .ok (c2, outputFiles) =>
      match generateHTMLTemplate env input.htmlTemplatePath outputFiles with
      | .error e => (c2, .error e)
      | .ok htmlFile => (c2, .ok (outputFiles ++ [htmlFile]))

/-- The writes performed by `build`'s output loop (`fs.writeFileSync` per
artifact, joined under the output folder): nothing is written when the build
fails, because every throwing step precedes the loop. -/
def buildWrites (env : Env) (fuel : Nat) (input : BuildInput) (c : Cache) :
    List (String × String) :=
  match (build env fuel input c).2 with
  | .error _ => []
  | .ok outs => outs.map (fun o => (pathJoin input.outputFolder o.name, o.content))

/-! ## Runtime model (the emitted `webpackStart` preamble in `addRuntime`)

The emitted bundle's behavior is modelled operationally: a factory function
(the runtime-wrapped transformed module body) is a sequence of the operations
a module body performs through its `(exports, require)` parameters — assigning
a property of its own `exports` object, and calling `require` (optionally
reading a property of the returned exports).  The runtime state is the
`moduleCache` (canonical path to its exports property bag, aliased with the
`exports` object passed to the factory) plus a log of factory invocations used
to state "each factory executes at most once". -/

/-- One step of a factory body. -/
inductive RStep where
  | setExp (key value : String)
  | reqDep (path : String)
  | setExpFromDep (key path depKey : String)

/-- The runtime module map: canonical path to factory body. -/
abbrev ModMap := List (String × List RStep)

/-- Property bag lookup (JS object property read). -/
def bagGet (bag : List (String × String)) (k : String) : Option String :=
  (bag.find? (·.1 = k)).map (·.2)

/-- Property bag assignment (JS object property write). -/
def bagSet (bag : List (String × String)) (k v : String) : List (String × String) :=
  if bag.any (·.1 = k) then bag.map (fun kv => if kv.1 = k then (k, v) else kv)
  else bag ++ [(k, v)]

/-- Runtime state: the `moduleCache` of the preamble, plus the invocation log. -/
structure RtState where
  moduleCache : List (String × List (String × String))
  log : List String

/-- Lookup in `moduleCache` (an entry's presence is what the JS truthiness
test `if (moduleCache[moduleName])` observes, since objects are truthy). -/
def rtGet (st : RtState) (p : String) : Option (List (String × String)) :=
  (st.moduleCache.find? (·.1 = p)).map (·.2)

/-- `moduleCache[moduleName] = exports` (overwrite or append). -/
def rtSet (st : RtState) (p : String) (e : List (String × String)) : RtState :=
  { st with
    moduleCache :=
      if st.moduleCache.any (·.1 = p) then
        st.moduleCache.map (fun kv => if kv.1 = p then (p, e) else kv)
      else st.moduleCache ++ [(p, e)] }

/-- Execution of a factory body, parameterized by the recursive `require`:
`setExp` writes the module's own exports (aliased with its cache entry),
`reqDep` calls `require` for effect, `setExpFromDep` reads a property off the
required module's exports (a missing property is JS `undefined`). -/
def runStepsWith (req : String → RtState → Option (RtState × List (String × String)))
    (self : String) : List RStep → RtState → Option RtState
  | [], st => some st
  | .setExp k v :: rest, st =>
    runStepsWith req self rest (rtSet st self (bagSet ((rtGet st self).getD []) k v))
  | .reqDep p :: rest, st =>
    match req p st with
    | none => none
    | some (st1, _) => runStepsWith req self rest st1
  | .setExpFromDep k p dk :: rest, st =>
    match req p st with
    | none => none
    | some (st1, depExports) =>
      runStepsWith req self rest
        (rtSet st1 self (bagSet ((rtGet st1 self).getD []) k ((bagGet depExports dk).getD "undefined")))

/-- Model of the preamble's `require`: return the cached exports if present;
otherwise create a fresh empty exports object, insert it into the cache
*before* executing the module's factory (logging the invocation), then run the
factory and return the (possibly partially populated) cached exports. -/
def requireRT (mods : ModMap) : Nat → String → RtState → Option (RtState × List (String × String))
  | 0, _, _ => none
  | fuel + 1, moduleName, st =>
    match rtGet st moduleName with
    | some e => some (st, e)
    | none =>
      let st0 : RtState :=
        { moduleCache := (rtSet st moduleName []).moduleCache, log := st.log ++ [moduleName] }
      match mods.find? (·.1 = moduleName) with
      | none => none
      | some entry =>
        match runStepsWith (requireRT mods fuel) moduleName entry.2 st0 with
        | none => none
        | some st1 => some (st1, (rtGet st1 moduleName).getD [])

/-- The factory invocation `modules[moduleName](exports, require)` together
with the final `return moduleCache[moduleName]`: in `requireRT` this is
reached only after the fresh exports object has been inserted into the cache
(see `c3_runtime_cache_protocol`). -/
def invokeFactory (mods : ModMap) (fuel : Nat) (moduleName : String) (st : RtState) :
    Option (RtState × List (String × String)) :=
  match mods.find? (·.1 = moduleName) with
  | none => none
  | some entry =>
    match runStepsWith (requireRT mods fuel) moduleName entry.2 st with
    | none => none
    | some st1 => some (st1, (rtGet st1 moduleName).getD [])

/-- Model of `webpackStart({ modules, entry })`: fresh caches, then
`require(entry)`. -/
def webpackStart (mods : ModMap) (fuel : Nat) (entry : String) :
    Option (RtState × List (String × String)) :=
  requireRT mods fuel entry ⟨[], []⟩

/-! ## Auxiliary predicates used by the theorems -/

mutual
/-- Occurrence of `n` as an identifier reference inside an expression
(non-computed member properties are names, not references). -/
def occursExpr (n : String) : Expr → Bool
  | .ident m => m = n
  | .strLit _ => false
  | .numLit _ => false
  | .member o pr comp => occursExpr n o || (comp && occursExpr n pr)
  | .call f args => occursExpr n f || occursList n args
  | .assign l r => occursExpr n l || occursExpr n r

/-- Occurrence of `n` in a list of expressions. -/
def occursList (n : String) : List Expr → Bool
  | [] => false
  | e :: es => occursExpr n e || occursList n es
end

/-- Occurrence of `n` in the reference positions of a statement (import
specifiers and declared names bind, they do not reference). -/
def occursStmt (n : String) : TopStmt → Bool
  | .importDecl _ _ => false
  | .exportDefaultDecl e => occursExpr n e
  | .exportNamedDecl ds => ds.any (fun d => occursExpr n d.2)
  | .exportSpecifiers sp => sp.any (fun pr => pr.2 = n)
  | .varDecl _ _ init => occursExpr n init
  | .exprStmt e => occursExpr n e

/-- Recognizes an import declaration. -/
def isImportStmt : TopStmt → Bool
  | .importDecl _ _ => true
  | _ => false

/-- Local names referenced by `export { ... }` specifiers. -/
def exportSpecLocals (prog : Program) : List String :=
  prog.body.foldr
    (fun s acc =>
      match s with
      | .exportSpecifiers sp => sp.map (·.2) ++ acc
      | _ => acc) []

/-- String starts-with test. -/
def strStarts (s pre : String) : Bool := listIsPre pre.data s.data

/-- The directory denoted by a list of path segments (the filesystem root for
the empty list). -/
def dirFromSegs : List String → String
  | [] => "/"
  | l => "/" ++ joinSep "/" l

/-- Modelled from the spec: the requester's ancestor directories walked from
the immediate parent up to the filesystem root, closest first; the counter is
the number of segments kept for the closest listed ancestor plus one. -/
def specAncestorDirsRec (dirSegs : List String) : Nat → List String
  | 0 => []
  | k + 1 => dirFromSegs (dirSegs.take k) :: specAncestorDirsRec dirSegs k

/-- Modelled from the spec: the candidate package-root list — each ancestor
directory with the conventional dependency-directory name appended. -/
def specAncestorCandidates (segs : List String) : List String :=
  (specAncestorDirsRec segs.dropLast (segs.dropLast.length + 1)).map
    (fun d => if d = "/" then "/node_modules" else d ++ "/node_modules")

/-- The style-injection script (after `trim`) with stylesheet text `t` spliced
into the quoted literal. -/
def cssInjected (t : String) : String :=
  "const content = \x27" ++ t ++ "\x27;"
    ++ "\nconst style = document.createElement(\x27style\x27);"
    ++ "\nstyle.type = \x27text/css\x27;"
    ++ "\nif (style.styleSheet) style.styleSheet.cssText = content;"
    ++ "\nelse style.appendChild(document.createTextNode(content));"
    ++ "\ndocument.head.appendChild(style);"
    ++ "\n    "

/-- Reachability from `root` along a dependency function: the least relation
containing `root` and closed under dependency edges. -/
inductive ReachF (deps : String → List String) (root : String) : String → Prop
  | refl : ReachF deps root root
  | step {p q : String} : ReachF deps root p → q ∈ deps p → ReachF deps root q

/-! ## Concrete environments and inputs used by witnesses and counterexamples -/

/-- Cyclic two-module filesystem: `/a.js` imports `./b.js` (with a used
default import), `/b.js` imports `./a.js` back. -/
def envW : Env :=
  { fs := [("/a.js", "ia"), ("/b.js", "ib")],
    parse := fun s =>
      if s = "ia" then
        some ⟨[.importDecl [.importDefault "b"] "./b.js", .exprStmt (.ident "b")]⟩
      else if s = "ib" then some ⟨[.importDecl [] "./a.js"]⟩
      else none,
    pkgResolve := fun _ _ => none }

/-- Diamond-shaped filesystem: the entry imports `./b.js` and `./c.js`, both of
which import `./d.js`. -/
def envDiamond : Env :=
  { fs := [("/e.js", "ie"), ("/b.js", "ib"), ("/c.js", "ic"), ("/d.js", "id")],
    parse := fun s =>
      if s = "ie" then some ⟨[.importDecl [] "./b.js", .importDecl [] "./c.js"]⟩
      else if s = "ib" then some ⟨[.importDecl [] "./d.js"]⟩
      else if s = "ic" then some ⟨[.importDecl [] "./d.js"]⟩
      else if s = "id" then some ⟨[]⟩
      else none,
    pkgResolve := fun _ _ => none }

/-- Environment whose filesystem holds a two-line stylesheet. -/
def envCssW : Env :=
  { fs := [("/s.css", "a\x7b\x7d\nb\x7b\x7d")],
    parse := fun _ => none,
    pkgResolve := fun _ _ => none }

/-- Minimal environment with an empty filesystem. -/
def envEmpty : Env :=
  { fs := [], parse := fun _ => none, pkgResolve := fun _ _ => none }

/-- Single-module filesystem with recognizable content `AAAA` plus an HTML
template; the parser wraps the file content in an expression statement so the
content is observable in the emitted bundle. -/
def envA : Env :=
  { fs := [("/e.js", "AAAA"), ("/t.html", "<html><body></body></html>")],
    parse := fun s => some ⟨[.exprStmt (.strLit s)]⟩,
    pkgResolve := fun _ _ => none }

/-- The same filesystem after the module file changed to `BBBB`. -/
def envB : Env :=
  { fs := [("/e.js", "BBBB"), ("/t.html", "<html><body></body></html>")],
    parse := fun s => some ⟨[.exprStmt (.strLit s)]⟩,
    pkgResolve := fun _ _ => none }

/-- Build input for the single-module environments, with the HTML template. -/
def inputA : BuildInput := ⟨"/e.js", "/out", some "/t.html"⟩

/-- Build input omitting the HTML template argument. -/
def inputNoHtml : BuildInput := ⟨"/e.js", "/out", none⟩

/-- Cyclic runtime module map: module `A` exports `x`, requires `B`, then
exports `y`; module `B` reads `A.x` while `A` is still mid-factory. -/
def modsW : ModMap :=
  [("A", [.setExp "x" "1", .reqDep "B", .setExp "y" "2"]),
    ("B", [.setExpFromDep "ax" "A" "x"])]

/-- Program with one default and one named import, both used. -/
def progW : Program :=
  ⟨[.importDecl [.importDefault "d", .importNamed "n" "n"] "./b.js",
    .exprStmt (.call (.ident "n") [.ident "d"])]⟩

/-- Build input whose entry has an extension with no registered loader. -/
def inputSvg : BuildInput := ⟨"/x.svg", "/out", none⟩

/-- Payload of an `Except`, with a default for the error case. -/
def exceptGetD {E A : Type} (d : A) : Except E A → A
  | .ok a => a
  | .error _ => d

/-- The dependency graph loaded for `envA` (the cache after `createDependencyGraph`). -/
def graphA : Cache := (createDependencyGraph envA 2 "/e.js" []).1

/-- The bundling result for `envA`: the post-transform cache and the emitted files. -/
def bundleA : Cache × List OutputFile := exceptGetD ([], []) (bundle graphA 2 "/e.js")

/-- The resolved import targets that loading `p` visits (`findDependencies`
on a script module resolves each import source against `p` and loads it);
stylesheet and unloadable paths visit none. -/
def envTargets (env : Env) (p : String) : List String :=
  match MODULE_LOADERS (extname p) with
  | some .js =>
    match envRead env p with
    | some raw =>
      match env.parse raw with
      | some prog => (importSources prog).filterMap (resolveRequest env p)
      | none => []
    | none => []
  | _ => []

/-- A chain of resolved import edges from the first path to the second over
nodes the cache does not yet hold: paths a load is bound to visit. -/
inductive UncachedReach (env : Env) (c : Cache) : String → String → Prop where
  | refl (p : String) (h : cacheHas c p = false) : UncachedReach env c p p
  | step (p q r : String) (h : cacheHas c p = false) (ht : q ∈ envTargets env p)
      (hr : UncachedReach env c q r) : UncachedReach env c p r

/-- Every path newly inserted into the cache went through the loader dispatch
(so its extension has a registered loader) and had every one of its
resolved import targets loaded as well. -/
def NewClosed (env : Env) (c c2 : Cache) : Prop :=
  ∀ q, cacheHas c q = false → cacheHas c2 q = true →
    MODULE_LOADERS (extname q) ≠ none ∧ ∀ t ∈ envTargets env q, cacheHas c2 t = true

/-- Filesystem whose entry `/a.js` is a script module importing `./x.svg` —
an imported dependency with an unregistered extension. -/
def envSvgDep : Env :=
  { fs := [("/a.js", "ia"), ("/x.svg", "svg")],
    parse := fun s => if s = "ia" then some ⟨[.importDecl [] "./x.svg"]⟩ else none,
    pkgResolve := fun _ _ => none }

/-- Build input for `envSvgDep`. -/
def inputSvgDep : BuildInput := ⟨"/a.js", "/out", none⟩

/-! ## Cache lemmas -/

/-- Cache membership as list membership of the key. -/
theorem cacheHas_iff_mem {c : Cache} {p : String} :
    cacheHas c p = true ↔ p ∈ c.map (·.1) := by
  simp [cacheHas, List.any_eq_true]

/-- Keys of the cache after a `set`: unchanged when the key was present,
extended by the key otherwise. -/
theorem keys_cacheSet (c : Cache) (p : String) (m : Module) :
    (cacheSet c p m).map (·.1)
      = if cacheHas c p then c.map (·.1) else c.map (·.1) ++ [p] := by
  unfold cacheSet cacheHas
  split
  · next h =>
    simp only [h, if_pos, List.map_map]
    apply List.map_congr_left
    intro kv _
    by_cases hkv : kv.1 = p
    · simp [hkv]
    · simp [hkv]
  · next h =>
    simp [h]

/-- Membership after `set`. -/
theorem cacheHas_cacheSet {c : Cache} {p q : String} {m : Module} :
    cacheHas (cacheSet c p m) q = true ↔ (cacheHas c q = true ∨ q = p) := by
  by_cases h : cacheHas c p = true
  · rw [cacheHas_iff_mem, keys_cacheSet, if_pos h, ← cacheHas_iff_mem]
    constructor
    · exact Or.inl
    · rintro (hq | rfl)
      · exact hq
      · exact h
  · rw [cacheHas_iff_mem, keys_cacheSet, if_neg h, List.mem_append, ← cacheHas_iff_mem]
    simp

/-- Reading back the key just set. -/
theorem cacheGet_cacheSet_self (c : Cache) (p : String) (m : Module) :
    cacheGet (cacheSet c p m) p = some m := by
  unfold cacheGet cacheSet
  split
  · next h =>
    induction c with
    | nil => simp [cacheHas] at h
    | cons kv rest ih =>
      by_cases hkv : kv.1 = p
      · simp [List.find?, hkv]
      · have hrest : rest.any (fun x => decide (x.1 = p)) = true := by
          simpa [List.any_cons, hkv] using h
        simp only [List.map_cons, List.find?, hkv, decide_eq_true_eq, if_neg]
        simpa [hkv] using ih hrest
  · next h =>
    induction c with
    | nil => simp [List.find?]
    | cons kv rest ih =>
      have hkv : ¬ kv.1 = p := by
        intro hh
        exact h (by simp [List.any_cons, hh])
      have hrest : ¬ rest.any (fun x => decide (x.1 = p)) = true := by
        intro hh
        exact h (by simp [List.any_cons, hh])
      simpa [List.find?, hkv] using ih hrest

/-- Finding a key other than the overwritten one is unaffected by overwrite. -/
theorem find?_mapSet {c : Cache} {p q : String} (m : Module) (h : q ≠ p) :
    List.find? (fun x => decide (x.1 = q)) (c.map (fun kv => if kv.1 = p then (p, m) else kv))
      = List.find? (fun x => decide (x.1 = q)) c := by
  induction c with
  | nil => rfl
  | cons kv rest ih =>
    by_cases hkv : kv.1 = p
    · have hne : ¬ kv.1 = q := by
        rw [hkv]
        exact fun hh => h hh.symm
      simp only [List.map_cons, if_pos hkv]
      rw [List.find?_cons_of_neg _ (by simp [Ne.symm h]), List.find?_cons_of_neg _ (by simp [hne])]
      exact ih
    · by_cases hq : kv.1 = q
      · simp only [List.map_cons, if_neg hkv]
        rw [List.find?_cons_of_pos _ (by simp [hq]), List.find?_cons_of_pos _ (by simp [hq])]
      · simp only [List.map_cons, if_neg hkv]
        rw [List.find?_cons_of_neg _ (by simp [hq]), List.find?_cons_of_neg _ (by simp [hq])]
        exact ih

/-- Finding a key other than an appended one is unaffected by the append. -/
theorem find?_appendEntry {c : Cache} {p q : String} (m : Module) (h : q ≠ p) :
    List.find? (fun x => decide (x.1 = q)) (c ++ [(p, m)])
      = List.find? (fun x => decide (x.1 = q)) c := by
  induction c with
  | nil =>
    simp only [List.nil_append]
    rw [List.find?_cons_of_neg _ (by simp [Ne.symm h])]
  | cons kv rest ih =>
    by_cases hq : kv.1 = q
    · simp only [List.cons_append]
      rw [List.find?_cons_of_pos _ (by simp [hq]), List.find?_cons_of_pos _ (by simp [hq])]
    · simp only [List.cons_append]
      rw [List.find?_cons_of_neg _ (by simp [hq]), List.find?_cons_of_neg _ (by simp [hq])]
      exact ih

/-- Reading a different key after a `set`. -/
theorem cacheGet_cacheSet_ne {c : Cache} {p q : String} (m : Module) (h : q ≠ p) :
    cacheGet (cacheSet c p m) q = cacheGet c q := by
  unfold cacheGet cacheSet
  split
  · rw [find?_mapSet m h]
  · rw [find?_appendEntry m h]

/-- A present key has a module. -/
theorem cacheGet_isSome_of_has {c : Cache} {p : String} (h : cacheHas c p = true) :
    (cacheGet c p).isSome = true := by
  unfold cacheGet cacheHas at *
  induction c with
  | nil => simp at h
  | cons kv rest ih =>
    by_cases hkv : kv.1 = p
    · simp [List.find?, hkv]
    · have : rest.any (fun x => decide (x.1 = p)) = true := by
        simpa [List.any_cons, hkv] using h
      simpa [List.find?, hkv] using ih this

/-- Key-uniqueness invariant of the cache: no two entries share a path. -/
def cacheKeysNodup (c : Cache) : Prop := (c.map (·.1)).Nodup

/-- Setting preserves key uniqueness. -/
theorem cacheKeysNodup_cacheSet {c : Cache} (p : String) (m : Module)
    (h : cacheKeysNodup c) : cacheKeysNodup (cacheSet c p m) := by
  unfold cacheKeysNodup at *
  rw [keys_cacheSet]
  split
  · exact h
  · next hp =>
    have hnm : p ∉ c.map (·.1) := fun hmem => hp (cacheHas_iff_mem.mpr hmem)
    rw [List.nodup_append]
    refine ⟨h, List.nodup_singleton p, ?_⟩
    intro a ha hb
    rw [List.mem_singleton] at hb
    subst hb
    exact hnm ha

/-! ## Fuel-sufficiency and cache-growth lemmas for `createModule` -/

/-- Number of filesystem paths not yet in the cache: the termination measure
for graph loading. -/
def uncachedCount (env : Env) (c : Cache) : Nat :=
  ((fsPaths env).toFinset.filter (fun q => cacheHas c q = false)).card

/-- A successful read means the path exists in the filesystem. -/
theorem envRead_mem {env : Env} {p raw : String} (h : envRead env p = some raw) :
    p ∈ fsPaths env := by
  unfold envRead at h
  rcases Option.map_eq_some'.mp h with ⟨kv, hfind, _⟩
  have hmem := List.mem_of_find?_eq_some hfind
  have hkey : kv.1 = p := by
    have := List.find?_some hfind
    exact of_decide_eq_true this
  exact hkey ▸ List.mem_map_of_mem (·.1) hmem

/-- Growing the cache can only shrink the measure. -/
theorem uncachedCount_le {env : Env} {c c' : Cache}
    (h : ∀ q, cacheHas c q = true → cacheHas c' q = true) :
    uncachedCount env c' ≤ uncachedCount env c := by
  apply Finset.card_le_card
  intro q hq
  rw [Finset.mem_filter] at *
  refine ⟨hq.1, ?_⟩
  rcases hq with ⟨_, hq2⟩
  cases hc : cacheHas c q with
  | false => rfl
  | true => rw [h q hc] at hq2; cases hq2

/-- Inserting an uncached filesystem path strictly shrinks the measure. -/
theorem uncachedCount_lt {env : Env} {c : Cache} {p : String} (m : Module)
    (hp : cacheHas c p = false) (hmem : p ∈ fsPaths env) :
    uncachedCount env (cacheSet c p m) < uncachedCount env c := by
  apply Finset.card_lt_card
  constructor
  · intro q hq
    rw [Finset.mem_filter] at *
    refine ⟨hq.1, ?_⟩
    rcases hq with ⟨_, hq2⟩
    cases hc : cacheHas c q with
    | false => rfl
    | true =>
      have : cacheHas (cacheSet c p m) q = true := cacheHas_cacheSet.mpr (Or.inl hc)
      rw [this] at hq2
      cases hq2
  · intro hsub
    have hpin : p ∈ (fsPaths env).toFinset.filter (fun q => cacheHas c q = false) := by
      rw [Finset.mem_filter]
      exact ⟨List.mem_toFinset.mpr hmem, hp⟩
    have := hsub hpin
    rw [Finset.mem_filter] at this
    have hset : cacheHas (cacheSet c p m) p = true := cacheHas_cacheSet.mpr (Or.inr rfl)
    rw [hset] at this
    cases this.2

/-- Cache growth through the dependency-loading loop, given cache growth of
the recursive loader. -/
theorem loadDepsWith_mono {rec : String → Cache → Cache × Except BuildErr String}
    (hrec : ∀ p c q, cacheHas c q = true → cacheHas (rec p c).1 q = true)
    (env : Env) (self : String) :
    ∀ (srcs : List String) (c : Cache) (acc : List String) (q : String),
      cacheHas c q = true → cacheHas (loadDepsWith rec env self srcs c acc).1 q = true := by
  intro srcs
  induction srcs with
  | nil =>
    intro c acc q hq
    simpa [loadDepsWith] using hq
  | cons src rest ih =>
    intro c acc q hq
    simp only [loadDepsWith]
    split
    · simpa using hq
    · next rp _ =>
      split
      · next c1 key heq =>
        apply ih
        have := hrec rp c q hq
        rw [heq] at this
        exact this
      · next c1 e heq =>
        have := hrec rp c q hq
        rw [heq] at this
        exact this

/-- Cache growth of `createModule`: loading never removes entries. -/
theorem createModule_mono (env : Env) :
    ∀ (fuel : Nat) (p : String) (c : Cache) (q : String),
      cacheHas c q = true → cacheHas (createModule env fuel p c).1 q = true := by
  intro fuel
  induction fuel with
  | zero =>
    intro p c q hq
    simpa [createModule] using hq
  | succ fuel ih =>
    intro p c q hq
    simp only [createModule]
    split
    · simpa using hq
    · split
      · simpa using hq
      · split
        · simpa using hq
        · exact cacheHas_cacheSet.mpr (Or.inl hq)
      · split
        · simpa using hq
        · next raw _ =>
          split
          · simpa using hq
          · next prog _ =>
            split
            · next c2 e heq =>
              have hmono := loadDepsWith_mono ih env p (importSources prog)
                (cacheSet c p ⟨.js, p, raw, prog, []⟩) [] q (cacheHas_cacheSet.mpr (Or.inl hq))
              rw [heq] at hmono
              exact hmono
            · next c2 deps heq =>
              apply cacheHas_cacheSet.mpr
              left
              have hmono := loadDepsWith_mono ih env p (importSources prog)
                (cacheSet c p ⟨.js, p, raw, prog, []⟩) [] q (cacheHas_cacheSet.mpr (Or.inl hq))
              rw [heq] at hmono
              exact hmono

/-- The dependency loop cannot exhaust fuel when the measure is below the
recursive loader's fuel. -/
theorem loadDepsWith_noFuel {env : Env} {fuel : Nat}
    {rec : String → Cache → Cache × Except BuildErr String}
    (hrecMono : ∀ p c q, cacheHas c q = true → cacheHas (rec p c).1 q = true)
    (hrecNF : ∀ p c, uncachedCount env c < fuel → (rec p c).2 ≠ .error .outOfFuel)
    (self : String) :
    ∀ (srcs : List String) (c : Cache) (acc : List String),
      uncachedCount env c < fuel →
      (loadDepsWith rec env self srcs c acc).2 ≠ .error .outOfFuel := by
  intro srcs
  induction srcs with
  | nil =>
    intro c acc _
    simp [loadDepsWith]
  | cons src rest ih =>
    intro c acc h
    simp only [loadDepsWith]
    split
    · simp
    · next rp _ =>
      split
      · next c1 key heq =>
        apply ih
        have hle : uncachedCount env (rec rp c).1 ≤ uncachedCount env c :=
          uncachedCount_le (fun q hq => hrecMono rp c q hq)
        rw [heq] at hle
        exact lt_of_le_of_lt hle h
      · next c1 e heq =>
        have hne := hrecNF rp c h
        rw [heq] at hne
        simpa using hne

/-- Fuel sufficiency: with more fuel than uncached filesystem paths,
`createModule` never exhausts its fuel — graph loading terminates on
every import graph, including cyclic ones. -/
theorem createModule_noFuel (env : Env) :
    ∀ (fuel : Nat) (p : String) (c : Cache), uncachedCount env c < fuel →
      (createModule env fuel p c).2 ≠ .error .outOfFuel := by
  intro fuel
  induction fuel with
  | zero =>
    intro p c h
    exact absurd h (Nat.not_lt_zero _)
  | succ fuel ih =>
    intro p c h
    simp only [createModule]
    split
    · simp
    · next hmiss =>
      split
      · simp
      · split
        · simp
        · simp
      · split
        · simp
        · next raw hraw =>
          split
          · simp
          · next prog _ =>
            have h1 : cacheHas c p = false := by
              cases hcb : cacheHas c p
              · rfl
              · exact absurd hcb hmiss
            have h2 : p ∈ fsPaths env := envRead_mem hraw
            have hlt := uncachedCount_lt (⟨.js, p, raw, prog, []⟩ : Module) h1 h2
            have hfuel : uncachedCount env (cacheSet c p ⟨.js, p, raw, prog, []⟩) < fuel := by
              omega
            split
            · next c2 e heq =>
              have hne := loadDepsWith_noFuel (createModule_mono env fuel) ih p
                (importSources prog) (cacheSet c p ⟨.js, p, raw, prog, []⟩) [] hfuel
              rw [heq] at hne
              simpa using hne
            · simp

/-- A cached path is returned immediately, with no recursion and no cache
change (`MODULE_CACHE.has` short-circuit of `createModule`). -/
theorem createModule_hit (env : Env) (fuel : Nat) {p : String} {c : Cache}
    (h : cacheHas c p = true) :
    createModule env (fuel + 1) p c = (c, .ok p) := by
  simp [createModule, h]

/-- A successful load returns the requested path, and the requested path is
in the resulting cache. -/
theorem createModule_ok (env : Env) (fuel : Nat) (p : String) (c c' : Cache) (k : String)
    (h : createModule env fuel p c = (c', .ok k)) :
    k = p ∧ cacheHas c' p = true := by
  cases fuel with
  | zero => simp [createModule] at h
  | succ fuel =>
    simp only [createModule] at h
    split at h
    · next hhit =>
      simp only [Prod.mk.injEq, Except.ok.injEq] at h
      obtain ⟨rfl, rfl⟩ := h
      exact ⟨rfl, hhit⟩
    · split at h
      · simp at h
      · split at h
        · simp at h
        · simp only [Prod.mk.injEq, Except.ok.injEq] at h
          obtain ⟨rfl, rfl⟩ := h
          exact ⟨rfl, cacheHas_cacheSet.mpr (Or.inr rfl)⟩
      · split at h
        · simp at h
        · split at h
          · simp at h
          · split at h
            · simp at h
            · simp only [Prod.mk.injEq, Except.ok.injEq] at h
              obtain ⟨rfl, rfl⟩ := h
              exact ⟨rfl, cacheHas_cacheSet.mpr (Or.inr rfl)⟩

/-- Key uniqueness is preserved by the dependency loop, given it is preserved
by the recursive loader. -/
theorem loadDepsWith_nodup {rec : String → Cache → Cache × Except BuildErr String}
    (hrec : ∀ p c, cacheKeysNodup c → cacheKeysNodup (rec p c).1)
    (env : Env) (self : String) :
    ∀ (srcs : List String) (c : Cache) (acc : List String),
      cacheKeysNodup c → cacheKeysNodup (loadDepsWith rec env self srcs c acc).1 := by
  intro srcs
  induction srcs with
  | nil =>
    intro c acc hc
    simpa [loadDepsWith] using hc
  | cons src rest ih =>
    intro c acc hc
    simp only [loadDepsWith]
    split
    · simpa using hc
    · next rp _ =>
      split
      · next c1 key heq =>
        apply ih
        have := hrec rp c hc
        rw [heq] at this
        exact this
      · next c1 e heq =>
        have := hrec rp c hc
        rw [heq] at this
        exact this

/-- Key uniqueness is preserved by `createModule`: the cache never holds two
modules for the same canonical path. -/
theorem createModule_nodup (env : Env) :
    ∀ (fuel : Nat) (p : String) (c : Cache),
      cacheKeysNodup c → cacheKeysNodup (createModule env fuel p c).1 := by
  intro fuel
  induction fuel with
  | zero =>
    intro p c hc
    simpa [createModule] using hc
  | succ fuel ih =>
    intro p c hc
    simp only [createModule]
    split
    · simpa using hc
    · split
      · simpa using hc
      · split
        · simpa using hc
        · exact cacheKeysNodup_cacheSet _ _ hc
      · split
        · simpa using hc
        · next raw _ =>
          split
          · simpa using hc
          · next prog _ =>
            have hc1 := cacheKeysNodup_cacheSet p (⟨.js, p, raw, prog, []⟩ : Module) hc
            split
            · next c2 e heq =>
              have := loadDepsWith_nodup ih env p (importSources prog)
                (cacheSet c p ⟨.js, p, raw, prog, []⟩) [] hc1
              rw [heq] at this
              exact this
            · next c2 deps heq =>
              apply cacheKeysNodup_cacheSet
              have := loadDepsWith_nodup ih env p (importSources prog)
                (cacheSet c p ⟨.js, p, raw, prog, []⟩) [] hc1
              rw [heq] at this
              exact this

/-! ## Claim theorems -/

/-- C1: for every import graph — including cyclic ones — module loading
terminates: with more fuel than there are uncached filesystem paths,
`createModule` never exhausts its fuel (so the recursion is bounded on every
graph), and a request for an already-registered path returns the existing
cache entry immediately instead of recursing (the entry for a path having been
inserted before its dependencies are loaded, per the `cacheSet` preceding
`loadDepsWith` in `createModule`). -/
theorem c1_module_loading_terminates (env : Env) (fuel : Nat) (p : String) (c : Cache)
    (h : uncachedCount env c < fuel) :
    (createModule env fuel p c).2 ≠ .error .outOfFuel ∧
      (cacheHas c p = true → createModule env fuel p c = (c, .ok p)) := by
  refine ⟨createModule_noFuel env fuel p c h, fun hhit => ?_⟩
  cases fuel with
  | zero => exact absurd h (Nat.not_lt_zero _)
  | succ fuel => exact createModule_hit env fuel hhit

/-- Witness for C1 at the cyclic environment `envW` (`/a.js` and
`/b.js` import each other), with fuel 3 and an empty cache. -/
theorem c1_module_loading_terminates_witness :
    uncachedCount envW [] < 3 ∧
      ((createModule envW 3 "/a.js" []).2 ≠ .error .outOfFuel ∧
        (cacheHas [] "/a.js" = true → createModule envW 3 "/a.js" [] = ([], .ok "/a.js"))) :=
  ⟨by decide, c1_module_loading_terminates envW 3 "/a.js" [] (by decide)⟩

/-- C10: when `createModule` fails for a path itself — unsupported extension,
unreadable file, or front-end parse failure — the module cache is left exactly
as it was: no entry is inserted for the failing path (insertion happens only
after `new ModuleCls(filePath)` completes without error) and previously loaded
entries are untouched. -/
theorem c10_failed_load_leaves_cache_unchanged (env : Env) (fuel : Nat) (p : String) (c : Cache)
    (hmiss : cacheHas c p = false)
    (hfail : MODULE_LOADERS (extname p) = none ∨ envRead env p = none ∨
      (MODULE_LOADERS (extname p) = some .js ∧
        ∃ raw, envRead env p = some raw ∧ env.parse raw = none)) :
    (createModule env (fuel + 1) p c).1 = c ∧
      cacheHas (createModule env (fuel + 1) p c).1 p = false ∧
      ∃ e, (createModule env (fuel + 1) p c).2 = .error e := by
  have hmiss' : ¬ cacheHas c p = true := by simp [hmiss]
  rcases hfail with hl | hr | ⟨hjs, raw, hraw, hparse⟩
  · refine ⟨?_, ?_, ?_⟩ <;> simp [createModule, hmiss', hl, hmiss]
  · cases hload : MODULE_LOADERS (extname p) with
    | none => refine ⟨?_, ?_, ?_⟩ <;> simp [createModule, hmiss', hload, hmiss]
    | some k =>
      cases k <;> (refine ⟨?_, ?_, ?_⟩ <;> simp [createModule, hmiss', hload, hr, hmiss])
  · refine ⟨?_, ?_, ?_⟩ <;> simp [createModule, hmiss', hjs, hraw, hparse, hmiss]

/-- Witness for C10: loading `/a/x.svg` (unsupported extension) with a
non-empty cache holding `/a.js` leaves the cache exactly as it was. -/
theorem c10_failed_load_leaves_cache_unchanged_witness :
    (cacheHas [("/a.js", (⟨.js, "/a.js", "", ⟨[]⟩, []⟩ : Module))] "/a/x.svg" = false ∧
        (MODULE_LOADERS (extname "/a/x.svg") = none ∨
          envRead envEmpty "/a/x.svg" = none ∨
          (MODULE_LOADERS (extname "/a/x.svg") = some .js ∧
            ∃ raw, envRead envEmpty "/a/x.svg" = some raw ∧ envEmpty.parse raw = none))) ∧
      ((createModule envEmpty 1 "/a/x.svg" [("/a.js", ⟨.js, "/a.js", "", ⟨[]⟩, []⟩)]).1
          = [("/a.js", ⟨.js, "/a.js", "", ⟨[]⟩, []⟩)] ∧
        cacheHas (createModule envEmpty 1 "/a/x.svg"
            [("/a.js", ⟨.js, "/a.js", "", ⟨[]⟩, []⟩)]).1 "/a/x.svg" = false ∧
        ∃ e, (createModule envEmpty 1 "/a/x.svg"
            [("/a.js", ⟨.js, "/a.js", "", ⟨[]⟩, []⟩)]).2 = .error e) :=
  ⟨⟨by decide, Or.inl (by decide)⟩,
    c10_failed_load_leaves_cache_unchanged envEmpty 0 "/a/x.svg"
      [("/a.js", ⟨.js, "/a.js", "", ⟨[]⟩, []⟩)] (by decide) (Or.inl (by decide))⟩

/-! ## DFS-correctness lemmas for `collectModules` -/

/-- The visited list only grows through the dependency iteration, given it
only grows through the recursive call. -/
theorem collectSeq_mono {rec : String → List String → Option (List String)}
    (hrec : ∀ m vis res, rec m vis = some res → ∀ q ∈ vis, q ∈ res) :
    ∀ (ds vis res : List String), collectSeq rec ds vis = some res → ∀ q ∈ vis, q ∈ res := by
  intro ds
  induction ds with
  | nil =>
    intro vis res h q hq
    simp only [collectSeq, Option.some.injEq] at h
    exact h ▸ hq
  | cons d rest ih =>
    intro vis res h q hq
    simp only [collectSeq] at h
    split at h
    · exact absurd h (by simp)
    · next vis1 heq => exact ih vis1 res h q (hrec d vis vis1 heq q hq)

/-- The visited list only grows through `collect`. -/
theorem collect_mono (deps : String → List String) :
    ∀ (fuel : Nat) (m : String) (vis res : List String),
      collect deps fuel m vis = some res → ∀ q ∈ vis, q ∈ res := by
  intro fuel
  induction fuel with
  | zero =>
    intro m vis res h
    simp [collect] at h
  | succ fuel ih =>
    intro m vis res h q hq
    simp only [collect] at h
    split at h
    · simp only [Option.some.injEq] at h
      exact h ▸ hq
    · exact collectSeq_mono ih (deps m) (vis ++ [m]) res h q (by simp [hq])

/-- The visited module is in the result of `collect`. -/
theorem collect_mem (deps : String → List String) (fuel : Nat) (m : String)
    (vis res : List String) (h : collect deps fuel m vis = some res) : m ∈ res := by
  cases fuel with
  | zero => simp [collect] at h
  | succ fuel =>
    simp only [collect] at h
    split at h
    · next hin =>
      simp only [Option.some.injEq] at h
      exact h ▸ hin
    · exact collectSeq_mono (collect_mono deps fuel) (deps m) (vis ++ [m]) res h m (by simp)

/-- The dependency iteration preserves distinctness of the visited list. -/
theorem collectSeq_nodup {rec : String → List String → Option (List String)}
    (hrec : ∀ m vis res, rec m vis = some res → vis.Nodup → res.Nodup) :
    ∀ (ds vis res : List String), collectSeq rec ds vis = some res → vis.Nodup → res.Nodup := by
  intro ds
  induction ds with
  | nil =>
    intro vis res h hn
    simp only [collectSeq, Option.some.injEq] at h
    exact h ▸ hn
  | cons d rest ih =>
    intro vis res h hn
    simp only [collectSeq] at h
    split at h
    · exact absurd h (by simp)
    · next vis1 heq => exact ih vis1 res h (hrec d vis vis1 heq hn)

/-- `collect` never records a module twice: the visited list stays distinct. -/
theorem collect_nodup (deps : String → List String) :
    ∀ (fuel : Nat) (m : String) (vis res : List String),
      collect deps fuel m vis = some res → vis.Nodup → res.Nodup := by
  intro fuel
  induction fuel with
  | zero =>
    intro m vis res h
    simp [collect] at h
  | succ fuel ih =>
    intro m vis res h hn
    simp only [collect] at h
    split at h
    · next hin =>
      simp only [Option.some.injEq] at h
      exact h ▸ hn
    · next hin =>
      refine collectSeq_nodup ih (deps m) (vis ++ [m]) res h ?_
      rw [List.nodup_append]
      exact ⟨hn, List.nodup_singleton m, by
        intro a ha hb
        rw [List.mem_singleton] at hb
        subst hb
        exact hin ha⟩

/-- Prepending a dependency edge to a reachability derivation. -/
theorem ReachF_prepend {deps : String → List String} {m d q : String}
    (hd : d ∈ deps m) (h : ReachF deps d q) : ReachF deps m q := by
  induction h with
  | refl => exact .step .refl hd
  | step _ hq ih => exact .step ih hq

/-- Everything the dependency iteration adds is reachable from one of the
iterated dependencies. -/
theorem collectSeq_sound {deps : String → List String}
    {rec : String → List String → Option (List String)}
    (hrec : ∀ m vis res, rec m vis = some res → ∀ q ∈ res, q ∈ vis ∨ ReachF deps m q) :
    ∀ (ds vis res : List String), collectSeq rec ds vis = some res →
      ∀ q ∈ res, q ∈ vis ∨ ∃ d ∈ ds, ReachF deps d q := by
  intro ds
  induction ds with
  | nil =>
    intro vis res h q hq
    simp only [collectSeq, Option.some.injEq] at h
    exact Or.inl (h ▸ hq)
  | cons d rest ih =>
    intro vis res h q hq
    simp only [collectSeq] at h
    split at h
    · exact absurd h (by simp)
    · next vis1 heq =>
      rcases ih vis1 res h q hq with hv1 | ⟨d', hd', hr⟩
      · rcases hrec d vis vis1 heq q hv1 with hv | hr
        · exact Or.inl hv
        · exact Or.inr ⟨d, by simp, hr⟩
      · exact Or.inr ⟨d', by simp [hd'], hr⟩

/-- Everything `collect` adds is reachable from the visited module. -/
theorem collect_sound (deps : String → List String) :
    ∀ (fuel : Nat) (m : String) (vis res : List String),
      collect deps fuel m vis = some res → ∀ q ∈ res, q ∈ vis ∨ ReachF deps m q := by
  intro fuel
  induction fuel with
  | zero =>
    intro m vis res h
    simp [collect] at h
  | succ fuel ih =>
    intro m vis res h q hq
    simp only [collect] at h
    split at h
    · simp only [Option.some.injEq] at h
      exact Or.inl (h ▸ hq)
    · rcases collectSeq_sound ih (deps m) (vis ++ [m]) res h q hq with hv | ⟨d, hd, hr⟩
      · rcases List.mem_append.mp hv with hv | hm
        · exact Or.inl hv
        · exact Or.inr (List.mem_singleton.mp hm ▸ .refl)
      · exact Or.inr (ReachF_prepend hd hr)

/-- Closure property through the dependency iteration: every recorded module
was already visited or has all its dependencies recorded. -/
theorem collectSeq_closed {deps : String → List String}
    {rec : String → List String → Option (List String)}
    (hrecM : ∀ m vis res, rec m vis = some res → ∀ q ∈ vis, q ∈ res)
    (hrecMem : ∀ m vis res, rec m vis = some res → m ∈ res)
    (hrecC : ∀ m vis res, rec m vis = some res →
      ∀ q ∈ res, q ∈ vis ∨ (∀ x ∈ deps q, x ∈ res)) :
    ∀ (ds vis res : List String), collectSeq rec ds vis = some res →
      (∀ d ∈ ds, d ∈ res) ∧ (∀ q ∈ res, q ∈ vis ∨ (∀ x ∈ deps q, x ∈ res)) := by
  intro ds
  induction ds with
  | nil =>
    intro vis res h
    simp only [collectSeq, Option.some.injEq] at h
    exact ⟨by simp, fun q hq => Or.inl (h ▸ hq)⟩
  | cons d rest ih =>
    intro vis res h
    simp only [collectSeq] at h
    split at h
    · exact absurd h (by simp)
    · next vis1 heq =>
      obtain ⟨hds, hcl⟩ := ih vis1 res h
      have hsub1 : ∀ q ∈ vis1, q ∈ res := collectSeq_mono hrecM rest vis1 res h
      refine ⟨?_, ?_⟩
      · intro d' hd'
        rcases List.mem_cons.mp hd' with rfl | hd'
        · exact hsub1 d' (hrecMem d' vis vis1 heq)
        · exact hds d' hd'
      · intro q hq
        rcases hcl q hq with hv1 | hqc
        · rcases hrecC d vis vis1 heq q hv1 with hv | hqc
          · exact Or.inl hv
          · exact Or.inr (fun x hx => hsub1 x (hqc x hx))
        · exact Or.inr hqc

/-- Closure property of `collect`: every recorded module was initially visited
or has all its dependencies recorded. -/
theorem collect_closed (deps : String → List String) :
    ∀ (fuel : Nat) (m : String) (vis res : List String),
      collect deps fuel m vis = some res →
      ∀ q ∈ res, q ∈ vis ∨ (∀ x ∈ deps q, x ∈ res) := by
  intro fuel
  induction fuel with
  | zero =>
    intro m vis res h
    simp [collect] at h
  | succ fuel ih =>
    intro m vis res h q hq
    simp only [collect] at h
    split at h
    · simp only [Option.some.injEq] at h
      exact Or.inl (h ▸ hq)
    · obtain ⟨hds, hcl⟩ :=
        collectSeq_closed (collect_mono deps fuel) (collect_mem deps fuel) ih
          (deps m) (vis ++ [m]) res h
      rcases hcl q hq with hv | hqc
      · rcases List.mem_append.mp hv with hv | hm
        · exact Or.inl hv
        · exact Or.inr (List.mem_singleton.mp hm ▸ hds)
      · exact Or.inr hqc

/-- Completeness of `collect` from an empty visited list: it records every
reachable module. -/
theorem collect_complete {deps : String → List String} {fuel : Nat} {m : String}
    {res : List String} (h : collect deps fuel m [] = some res) :
    ∀ q, ReachF deps m q → q ∈ res := by
  intro q hq
  induction hq with
  | refl => exact collect_mem deps fuel m [] res h
  | step _ hedge ih =>
    rcases collect_closed deps fuel m [] res h _ ih with hv | hcl
    · simp at hv
    · exact hcl _ hedge

/-- C2: within one build `createModule` is idempotent — once a path has been
loaded, calling it again returns the very same cache entry and changes
nothing — the cache never holds two modules for one canonical path, and the
collected module set (the entries serialized into the emitted module map)
lists each distinct canonical path reachable from the entry exactly once,
regardless of how many modules import it. -/
theorem c2_create_module_idempotent_unique (env : Env) (fuel fuel2 : Nat) (p : String)
    (c c' : Cache) (res : List String)
    (hn : cacheKeysNodup c)
    (hok : createModule env fuel p c = (c', .ok p))
    (hcol : collectModules c' fuel2 p = some res) :
    cacheKeysNodup c' ∧
      (∀ fuel3 : Nat, createModule env (fuel3 + 1) p c' = (c', .ok p)) ∧
      res.Nodup ∧
      (∀ q, q ∈ res ↔ ReachF (depsOf c') p q) := by
  simp only [collectModules] at hcol
  have hc' : c' = (createModule env fuel p c).1 := by rw [hok]
  have hnd : cacheKeysNodup c' := by
    rw [hc']
    exact createModule_nodup env fuel p c hn
  have hhas : cacheHas c' p = true := (createModule_ok env fuel p c c' p hok).2
  refine ⟨hnd, fun fuel3 => createModule_hit env fuel3 hhas, ?_, ?_⟩
  · exact collect_nodup _ fuel2 p [] res hcol List.nodup_nil
  · intro q
    constructor
    · intro hq
      rcases collect_sound _ fuel2 p [] res hcol q hq with hv | hr
      · simp at hv
      · exact hr
    · exact fun hr => collect_complete hcol q hr

/-- Witness for C2 at the diamond-shaped environment `envDiamond` (two
modules import `/d.js`, which appears exactly once in the collected set). -/
theorem c2_create_module_idempotent_unique_witness :
    (cacheKeysNodup ([] : Cache) ∧
        createModule envDiamond 9 "/e.js" []
          = ((createModule envDiamond 9 "/e.js" []).1, .ok "/e.js") ∧
        collectModules (createModule envDiamond 9 "/e.js" []).1 9 "/e.js"
          = some ["/e.js", "/b.js", "/d.js", "/c.js"]) ∧
      (cacheKeysNodup (createModule envDiamond 9 "/e.js" []).1 ∧
        (∀ fuel3 : Nat,
          createModule envDiamond (fuel3 + 1) "/e.js" (createModule envDiamond 9 "/e.js" []).1
            = ((createModule envDiamond 9 "/e.js" []).1, .ok "/e.js")) ∧
        (["/e.js", "/b.js", "/d.js", "/c.js"] : List String).Nodup ∧
        (∀ q, q ∈ (["/e.js", "/b.js", "/d.js", "/c.js"] : List String)
          ↔ ReachF (depsOf (createModule envDiamond 9 "/e.js" []).1) "/e.js" q)) :=
  ⟨⟨by simp [cacheKeysNodup], rfl, rfl⟩,
    c2_create_module_idempotent_unique envDiamond 9 9 "/e.js" []
      (createModule envDiamond 9 "/e.js" []).1 ["/e.js", "/b.js", "/d.js", "/c.js"]
      (by simp [cacheKeysNodup]) rfl rfl⟩

/-! ## Runtime-protocol lemmas -/

/-- Key membership of an association list as membership of the key list. -/
theorem anyKey_iff_mem {α : Type} {l : List (String × α)} {p : String} :
    l.any (·.1 = p) = true ↔ p ∈ l.map (·.1) := by
  simp [List.any_eq_true]

/-- `rtGet` misses exactly when the key is absent. -/
theorem rtGet_none_iff {st : RtState} {p : String} :
    rtGet st p = none ↔ st.moduleCache.any (·.1 = p) = false := by
  unfold rtGet
  rw [Option.map_eq_none', List.find?_eq_none]
  constructor
  · intro h
    cases hany : st.moduleCache.any (·.1 = p) with
    | false => rfl
    | true =>
      rcases List.any_eq_true.mp hany with ⟨kv, hkv, hp⟩
      exact absurd hp (by simpa using h kv hkv)
  · intro h kv hkv
    intro hp
    have : st.moduleCache.any (·.1 = p) = true := List.any_eq_true.mpr ⟨kv, hkv, hp⟩
    rw [h] at this
    cases this

/-- Keys of the runtime cache after `rtSet`. -/
theorem rtKeys_rtSet (st : RtState) (p : String) (e : List (String × String)) :
    (rtSet st p e).moduleCache.map (·.1)
      = if st.moduleCache.any (·.1 = p) then st.moduleCache.map (·.1)
        else st.moduleCache.map (·.1) ++ [p] := by
  unfold rtSet
  split
  · next h =>
    simp only [h, if_pos, List.map_map]
    apply List.map_congr_left
    intro kv _
    by_cases hkv : kv.1 = p
    · simp [hkv]
    · simp [hkv]
  · next h => simp [h]

/-- Key membership after `rtSet`. -/
theorem rtAny_rtSet {st : RtState} {p q : String} {e : List (String × String)} :
    (rtSet st p e).moduleCache.any (·.1 = q) = true
      ↔ (st.moduleCache.any (·.1 = q) = true ∨ q = p) := by
  by_cases h : st.moduleCache.any (·.1 = p) = true
  · rw [anyKey_iff_mem, rtKeys_rtSet, if_pos h, ← anyKey_iff_mem]
    constructor
    · exact Or.inl
    · rintro (hq | rfl)
      · exact hq
      · exact h
  · rw [anyKey_iff_mem, rtKeys_rtSet, if_neg h, List.mem_append, ← anyKey_iff_mem]
    simp

/-- The runtime log, and in particular its distinctness invariant, survives a
factory body, given it survives every recursive `require`. -/
theorem runStepsWith_pres {req : String → RtState → Option (RtState × List (String × String))}
    (hreq : ∀ p st r, req p st = some r →
      (((st.log.Nodup ∧ ∀ q ∈ st.log, st.moduleCache.any (·.1 = q) = true) →
          (r.1.log.Nodup ∧ ∀ q ∈ r.1.log, r.1.moduleCache.any (·.1 = q) = true)) ∧
        (∀ q, st.moduleCache.any (·.1 = q) = true → r.1.moduleCache.any (·.1 = q) = true)))
    (self : String) :
    ∀ (steps : List RStep) (st : RtState) (st2 : RtState),
      runStepsWith req self steps st = some st2 →
      (((st.log.Nodup ∧ ∀ q ∈ st.log, st.moduleCache.any (·.1 = q) = true) →
          (st2.log.Nodup ∧ ∀ q ∈ st2.log, st2.moduleCache.any (·.1 = q) = true)) ∧
        (∀ q, st.moduleCache.any (·.1 = q) = true → st2.moduleCache.any (·.1 = q) = true)) := by
  intro steps
  induction steps with
  | nil =>
    intro st st2 h
    simp only [runStepsWith, Option.some.injEq] at h
    subst h
    exact ⟨id, fun _ => id⟩
  | cons step rest ih =>
    intro st st2 h
    cases step with
    | setExp k v =>
      simp only [runStepsWith] at h
      obtain ⟨hinv, hmono⟩ := ih _ st2 h
      refine ⟨?_, ?_⟩
      · intro hst
        apply hinv
        refine ⟨hst.1, fun q hq => ?_⟩
        exact rtAny_rtSet.mpr (Or.inl (hst.2 q hq))
      · intro q hq
        exact hmono q (rtAny_rtSet.mpr (Or.inl hq))
    | reqDep p =>
      simp only [runStepsWith] at h
      split at h
      · exact absurd h (by simp)
      · next st1 ex heq =>
        obtain ⟨hinv1, hmono1⟩ := hreq p st (st1, ex) heq
        obtain ⟨hinv2, hmono2⟩ := ih _ st2 h
        exact ⟨fun hst => hinv2 (hinv1 hst), fun q hq => hmono2 q (hmono1 q hq)⟩
    | setExpFromDep k p dk =>
      simp only [runStepsWith] at h
      split at h
      · exact absurd h (by simp)
      · next st1 depExports heq =>
        obtain ⟨hinv1, hmono1⟩ := hreq p st (st1, depExports) heq
        obtain ⟨hinv2, hmono2⟩ := ih _ st2 h
        refine ⟨?_, ?_⟩
        · intro hst
          apply hinv2
          have h1 := hinv1 hst
          refine ⟨h1.1, fun q hq => ?_⟩
          exact rtAny_rtSet.mpr (Or.inl (h1.2 q hq))
        · intro q hq
          exact hmono2 q (rtAny_rtSet.mpr (Or.inl (hmono1 q hq)))

/-- The `require` of the emitted runtime preserves the log invariant (the log
is distinct and all logged modules are cached) and only grows the cache. -/
theorem requireRT_pres (mods : ModMap) :
    ∀ (fuel : Nat) (p : String) (st : RtState) (r : RtState × List (String × String)),
      requireRT mods fuel p st = some r →
      (((st.log.Nodup ∧ ∀ q ∈ st.log, st.moduleCache.any (·.1 = q) = true) →
          (r.1.log.Nodup ∧ ∀ q ∈ r.1.log, r.1.moduleCache.any (·.1 = q) = true)) ∧
        (∀ q, st.moduleCache.any (·.1 = q) = true → r.1.moduleCache.any (·.1 = q) = true)) := by
  intro fuel
  induction fuel with
  | zero =>
    intro p st r h
    simp [requireRT] at h
  | succ fuel ih =>
    intro p st r h
    simp only [requireRT] at h
    split at h
    · next e _ =>
      simp only [Option.some.injEq] at h
      subst h
      exact ⟨id, fun _ => id⟩
    · next hnone =>
      split at h
      · exact absurd h (by simp)
      · next entry _ =>
        split at h
        · exact absurd h (by simp)
        · next st1 hrun =>
          simp only [Option.some.injEq] at h
          subst h
          obtain ⟨hinv, hmono⟩ := runStepsWith_pres ih p entry.2 _ st1 hrun
          have hmiss : st.moduleCache.any (·.1 = p) = false := rtGet_none_iff.mp hnone
          refine ⟨?_, ?_⟩
          · intro hst
            apply hinv
            constructor
            · rw [List.nodup_append]
              refine ⟨hst.1, List.nodup_singleton p, ?_⟩
              intro a ha hb
              rw [List.mem_singleton] at hb
              subst hb
              have := hst.2 a ha
              rw [hmiss] at this
              cases this
            · intro q hq
              rcases List.mem_append.mp hq with hq | hq
              · exact rtAny_rtSet.mpr (Or.inl (hst.2 q hq))
              · exact rtAny_rtSet.mpr (Or.inr (List.mem_singleton.mp hq))
          · intro q hq
            exact hmono q (rtAny_rtSet.mpr (Or.inl hq))

/-- C3: the emitted runtime's `require` protocol.  (i) Each module's factory
executes at most once per run: starting from a state whose invocation log is
distinct and cached, every reachable log counts every path at most once.
(ii) A `require` of an already-cached path — in particular the inner
`require(A)` of a circular chain — returns the cached (possibly partially
populated) exports object with the state untouched, so the factory is not
re-entered.  (iii) On a cache miss, the fresh exports object is inserted into
the module cache strictly before the factory is invoked: `require` equals
`invokeFactory` run on the state already extended with the empty exports. -/
theorem c3_runtime_cache_protocol (mods : ModMap) (fuel : Nat) (p : String) (st : RtState)
    (hinv : st.log.Nodup ∧ ∀ q ∈ st.log, st.moduleCache.any (·.1 = q) = true) :
    (∀ r, requireRT mods fuel p st = some r → ∀ q, r.1.log.count q ≤ 1) ∧
      (∀ e, rtGet st p = some e → 1 ≤ fuel → requireRT mods fuel p st = some (st, e)) ∧
      (rtGet st p = none → ∀ fuel0, fuel = fuel0 + 1 →
        requireRT mods fuel p st
          = invokeFactory mods fuel0 p
              { moduleCache := (rtSet st p []).moduleCache, log := st.log ++ [p] }) := by
  refine ⟨?_, ?_, ?_⟩
  · intro r hr q
    have hr1 := ((requireRT_pres mods fuel p st r hr).1 hinv).1
    exact List.nodup_iff_count_le_one.mp hr1 q
  · intro e he hfuel
    cases fuel with
    | zero => exact absurd hfuel (by simp)
    | succ fuel => simp [requireRT, he]
  · intro hnone fuel0 hfuel
    subst hfuel
    simp [requireRT, hnone, invokeFactory]

/-- Witness for C3 at the cyclic runtime map `modsW` (module `A` requires `B`
mid-factory and `B` requires `A` back), starting from fresh caches. -/
theorem c3_runtime_cache_protocol_witness :
    ((([] : List String).Nodup ∧
        ∀ q ∈ ([] : List String), (([] : List (String × List (String × String))).any (·.1 = q)) = true) ∧
      ((∀ r, requireRT modsW 10 "A" ⟨[], []⟩ = some r → ∀ q, r.1.log.count q ≤ 1) ∧
        (∀ e, rtGet ⟨[], []⟩ "A" = some e → 1 ≤ 10 →
          requireRT modsW 10 "A" ⟨[], []⟩ = some (⟨[], []⟩, e)) ∧
        (rtGet ⟨[], []⟩ "A" = none → ∀ fuel0, 10 = fuel0 + 1 →
          requireRT modsW 10 "A" ⟨[], []⟩
            = invokeFactory modsW fuel0 "A"
                { moduleCache := (rtSet ⟨[], []⟩ "A" []).moduleCache, log := [] ++ ["A"] }))) :=
  ⟨⟨List.nodup_nil, by simp⟩,
    c3_runtime_cache_protocol modsW 10 "A" ⟨[], []⟩ ⟨List.nodup_nil, by simp⟩⟩

/-- Concrete run of the cyclic map `modsW`: module `B`, required while `A` is
mid-factory, reads `A`'s exports in their partial state (`x` is present, `y`
is not yet), each factory runs exactly once, and `A`'s exports end fully
populated. -/
theorem requireRT_cycle_partial_population :
    (requireRT modsW 10 "A" ⟨[], []⟩).map (fun r => (r.1.moduleCache, r.1.log))
      = some ([("A", [("x", "1"), ("y", "2")]), ("B", [("ax", "1")])], ["A", "B"]) := rfl

/-! ## Lemmas about the module-interface transform -/

/-- String concatenation acts on the underlying character lists. -/
theorem strData_append (a b : String) : (a ++ b).data = a.data ++ b.data := rfl

/-- A list starts with itself followed by anything. -/
theorem listIsPre_append_self : ∀ (l m : List Char), listIsPre l (l ++ m) = true
  | [], _ => rfl
  | a :: as, m => by simp [listIsPre, listIsPre_append_self as m]

/-- A concatenation starts with its first part. -/
theorem strStarts_append (a b : String) : strStarts (a ++ b) a = true := by
  rw [strStarts, strData_append]
  exact listIsPre_append_self a.data b.data

/-- Every generated uid starts with `_imported`. -/
theorem uidName_starts (i : Nat) : strStarts (uidName i) "_imported" = true := by
  unfold uidName
  split
  · have := strStarts_append "_imported" ""
    simpa using this
  · exact strStarts_append "_imported" _

/-- A local that does not start with `_imported` is no generated uid. -/
theorem uidName_ne {L : String} (h : strStarts L "_imported" = false) (i : Nat) :
    ¬ uidName i = L := by
  intro heq
  have := uidName_starts i
  rw [heq, h] at this
  cases this

/-- Every substitution value is a computed member access on a uid. -/
theorem importSubstFrom_val_shape :
    ∀ (imps : List (List ImportSpec × String)) (i : Nat) (kv : String × Expr),
      kv ∈ importSubstFrom imps i →
      ∃ j key, kv.2 = .member (.ident (uidName j)) (.strLit key) true := by
  intro imps
  induction imps with
  | nil =>
    intro i kv h
    simp [importSubstFrom] at h
  | cons ip rest ih =>
    intro i kv h
    simp only [importSubstFrom, List.mem_append] at h
    rcases h with h | h
    · rcases List.mem_map.mp h with ⟨sp, _, rfl⟩
      exact ⟨i, specKey sp, rfl⟩
    · exact ih (i + 1) kv h

/-- Keys of the substitution environment are exactly the imported locals. -/
theorem importSubstFrom_keys :
    ∀ (imps : List (List ImportSpec × String)) (i : Nat),
      (importSubstFrom imps i).map (·.1)
        = imps.foldr (fun ip acc => ip.1.map specLocal ++ acc) [] := by
  intro imps
  induction imps with
  | nil => intro i; rfl
  | cons ip rest ih =>
    intro i
    simp only [importSubstFrom, List.map_append, List.map_map, List.foldr_cons, ih (i + 1)]
    rfl

/-- `find?` skips a first block with no match. -/
theorem find?_append_left_none {α : Type} (l1 l2 : List α) (pred : α → Bool)
    (h : ∀ x ∈ l1, pred x = false) : (l1 ++ l2).find? pred = l2.find? pred := by
  induction l1 with
  | nil => simp
  | cons x xs ih =>
    simp only [List.cons_append]
    rw [List.find?_cons_of_neg _ (by simp [h x (by simp)])]
    exact ih (fun y hy => h y (by simp [hy]))

/-- Lookup of a specifier's local among the entries generated for its
own import declaration. -/
theorem specEntries_lookup (u : Nat) :
    ∀ (specs : List ImportSpec) (tail : List (String × Expr)) (sp : ImportSpec),
      sp ∈ specs → (specs.map specLocal).Nodup →
      ((specs.map (fun sp' =>
          (specLocal sp', Expr.member (.ident (uidName u)) (.strLit (specKey sp')) true)))
        ++ tail).find? (·.1 = specLocal sp)
        = some (specLocal sp, .member (.ident (uidName u)) (.strLit (specKey sp)) true) := by
  intro specs
  induction specs with
  | nil =>
    intro tail sp h
    simp at h
  | cons sp0 rest ih =>
    intro tail sp hmem hnd
    rcases List.mem_cons.mp hmem with rfl | hmem
    · simp only [List.map_cons, List.cons_append]
      rw [List.find?_cons_of_pos _ (by simp)]
    · have hne : ¬ specLocal sp0 = specLocal sp := by
        intro heq
        have h1 : specLocal sp ∈ rest.map specLocal := List.mem_map_of_mem specLocal hmem
        rw [List.map_cons, List.nodup_cons] at hnd
        exact hnd.1 (heq ▸ h1)
      simp only [List.map_cons, List.cons_append]
      rw [List.find?_cons_of_neg _ (by simp [fun h => hne (by simpa using h)])]
      exact ih tail sp hmem (by
        rw [List.map_cons, List.nodup_cons] at hnd
        exact hnd.2)

/-- Lookup of an imported local in the whole substitution environment: with
distinct imported locals, the `k`-th import declaration's specifier `sp` maps
to a computed member access on the `k`-th uid, keyed by `specKey sp`. -/
theorem importSubstFrom_lookup :
    ∀ (imps : List (List ImportSpec × String)) (i k : Nat)
      (specs : List ImportSpec) (src : String) (sp : ImportSpec),
      imps.get? k = some (specs, src) → sp ∈ specs →
      (imps.foldr (fun ip acc => ip.1.map specLocal ++ acc) []).Nodup →
      (importSubstFrom imps i).find? (·.1 = specLocal sp)
        = some (specLocal sp, .member (.ident (uidName (i + k))) (.strLit (specKey sp)) true) := by
  intro imps
  induction imps with
  | nil =>
    intro i k specs src sp hget
    simp at hget
  | cons ip rest ih =>
    intro i k specs src sp hget hmem hnd
    simp only [List.foldr_cons] at hnd
    rw [List.nodup_append] at hnd
    obtain ⟨hnd1, hnd2, hdisj⟩ := hnd
    cases k with
    | zero =>
      simp only [List.get?_cons_zero, Option.some.injEq] at hget
      have hip : ip.1 = specs := by rw [hget]
      subst hip
      simp only [importSubstFrom, Nat.add_zero]
      exact specEntries_lookup i ip.1 _ sp hmem hnd1
    | succ k =>
      simp only [List.get?_cons_succ] at hget
      have hL : specLocal sp ∈ rest.foldr (fun ip acc => ip.1.map specLocal ++ acc) [] := by
        have hspecs : specs ∈ rest.map (·.1) := by
          have := List.get?_mem hget
          exact List.mem_map_of_mem (·.1) this
        clear ih hget hdisj hnd1 hnd2
        induction rest with
        | nil => simp at hspecs
        | cons ip' rest' ih' =>
          simp only [List.map_cons, List.mem_cons] at hspecs
          simp only [List.foldr_cons, List.mem_append]
          rcases hspecs with heq | hspecs
          · exact Or.inl (heq ▸ List.mem_map_of_mem specLocal hmem)
          · exact Or.inr (ih' hspecs)
      simp only [importSubstFrom]
      rw [find?_append_left_none]
      · have := ih (i + 1) k specs src sp hget hmem hnd2
        rw [show i + 1 + k = i + (k + 1) by omega] at this
        exact this
      · intro x hx
        rcases List.mem_map.mp hx with ⟨sp', hsp', rfl⟩
        simp only [decide_eq_false_iff_not]
        intro heq
        exact hdisj (heq ▸ List.mem_map_of_mem specLocal hsp') hL

/-- `importsOf` on a body headed by an import declaration. -/
theorem importsOf_cons_import (sp : List ImportSpec) (src : String) (rest : List TopStmt) :
    importsOf ⟨.importDecl sp src :: rest⟩ = (sp, src) :: importsOf ⟨rest⟩ := rfl

/-- `importsOf` skips a non-import head. -/
theorem importsOf_cons_other (s : TopStmt) (rest : List TopStmt) (h : isImportStmt s = false) :
    importsOf ⟨s :: rest⟩ = importsOf ⟨rest⟩ := by
  cases s <;> first
    | rfl
    | simp [isImportStmt] at h

/-- The dependency-discovery mutation keeps every import's specifiers and
replaces each source by its resolved path. -/
theorem importsOf_rewriteSources (env : Env) (fp : String) :
    ∀ (body : List TopStmt),
      importsOf (rewriteSources env fp ⟨body⟩)
        = (importsOf ⟨body⟩).map (fun ip => (ip.1, (resolveRequest env fp ip.2).getD ip.2)) := by
  intro body
  induction body with
  | nil => rfl
  | cons s rest ih =>
    cases s with
    | importDecl sp src =>
      simp only [rewriteSources] at ih ⊢
      simp only [List.map_cons, importsOf_cons_import, ih]
    | exportDefaultDecl e =>
      simp only [rewriteSources] at ih ⊢
      simpa [importsOf_cons_other] using ih
    | exportNamedDecl ds =>
      simp only [rewriteSources] at ih ⊢
      simpa [importsOf_cons_other] using ih
    | exportSpecifiers sp =>
      simp only [rewriteSources] at ih ⊢
      simpa [importsOf_cons_other] using ih
    | varDecl k n init =>
      simp only [rewriteSources] at ih ⊢
      simpa [importsOf_cons_other] using ih
    | exprStmt e =>
      simp only [rewriteSources] at ih ⊢
      simpa [importsOf_cons_other] using ih

/-- Dependency discovery does not change the imported local names. -/
theorem importLocals_rewriteSources (env : Env) (fp : String) (prog : Program) :
    importLocals (rewriteSources env fp prog) = importLocals prog := by
  obtain ⟨body⟩ := prog
  unfold importLocals
  rw [importsOf_rewriteSources]
  induction importsOf ⟨body⟩ with
  | nil => rfl
  | cons ip rest ih => simp only [List.map_cons, List.foldr_cons, ih]

/-- Dependency discovery does not change export specifiers. -/
theorem exportSpecLocals_rewriteSources (env : Env) (fp : String) (prog : Program) :
    exportSpecLocals (rewriteSources env fp prog) = exportSpecLocals prog := by
  obtain ⟨body⟩ := prog
  unfold exportSpecLocals rewriteSources
  induction body with
  | nil => rfl
  | cons s rest ih => cases s <;> simpa using ih

mutual
/-- Substitution eliminates every reference to a key of the environment whose
values avoid that key. -/
theorem substExpr_kills (σ : List (String × Expr)) (L : String)
    (hA : (σ.find? (·.1 = L)).isSome = true)
    (hB : ∀ kv ∈ σ, occursExpr L kv.2 = false) :
    ∀ e : Expr, occursExpr L (substExpr σ e) = false
  | .ident n => by
    simp only [substExpr]
    split
    · next kv hf => exact hB kv (List.mem_of_find?_eq_some hf)
    · next hf =>
      simp only [occursExpr, decide_eq_false_iff_not]
      intro heq
      subst heq
      rcases Option.isSome_iff_exists.mp hA with ⟨kv, hkv⟩
      rw [hf] at hkv
      cases hkv
  | .strLit s => by simp [substExpr, occursExpr]
  | .numLit v => by simp [substExpr, occursExpr]
  | .member o pr comp => by
    cases comp with
    | true =>
      simp only [substExpr, if_pos, occursExpr]
      simp [substExpr_kills σ L hA hB o, substExpr_kills σ L hA hB pr]
    | false =>
      simp only [substExpr, occursExpr]
      simp [substExpr_kills σ L hA hB o]
  | .call f args => by
    simp only [substExpr, occursExpr]
    simp [substExpr_kills σ L hA hB f, substList_kills σ L hA hB args]
  | .assign l r => by
    simp only [substExpr, occursExpr]
    simp [substExpr_kills σ L hA hB l, substExpr_kills σ L hA hB r]

/-- List version of `substExpr_kills`. -/
theorem substList_kills (σ : List (String × Expr)) (L : String)
    (hA : (σ.find? (·.1 = L)).isSome = true)
    (hB : ∀ kv ∈ σ, occursExpr L kv.2 = false) :
    ∀ es : List Expr, occursList L (substList σ es) = false
  | [] => by simp [substList, occursList]
  | e :: es => by
    simp only [substList, occursList]
    simp [substExpr_kills σ L hA hB e, substList_kills σ L hA hB es]
end

/-- The transformed body contains no import declaration: every import became a
`const uid = require(...)` declaration and exports became assignments. -/
theorem rewriteStmts_no_import (σ : List (String × Expr)) :
    ∀ (body : List TopStmt) (i : Nat), ∀ t ∈ rewriteStmts σ body i, isImportStmt t = false := by
  intro body
  induction body with
  | nil =>
    intro i t ht
    simp [rewriteStmts] at ht
  | cons s rest ih =>
    intro i t ht
    cases s with
    | importDecl sp src =>
      simp only [rewriteStmts] at ht
      rcases List.mem_cons.mp ht with rfl | ht
      · rfl
      · exact ih (i + 1) t ht
    | exportDefaultDecl e =>
      simp only [rewriteStmts, substStmt, rewriteExport] at ht
      rcases List.mem_append.mp ht with ht | ht
      · rcases List.mem_singleton.mp ht with rfl
        rfl
      · exact ih i t ht
    | exportNamedDecl ds =>
      simp only [rewriteStmts, substStmt, rewriteExport] at ht
      rcases List.mem_append.mp ht with ht | ht
      · rcases List.mem_map.mp ht with ⟨d, _, rfl⟩
        rfl
      · exact ih i t ht
    | exportSpecifiers sp =>
      simp only [rewriteStmts, substStmt, rewriteExport] at ht
      rcases List.mem_append.mp ht with ht | ht
      · rcases List.mem_map.mp ht with ⟨d, _, rfl⟩
        rfl
      · exact ih i t ht
    | varDecl k n init =>
      simp only [rewriteStmts, substStmt, rewriteExport] at ht
      rcases List.mem_append.mp ht with ht | ht
      · rcases List.mem_singleton.mp ht with rfl
        rfl
      · exact ih i t ht
    | exprStmt e =>
      simp only [rewriteStmts, substStmt, rewriteExport] at ht
      rcases List.mem_append.mp ht with ht | ht
      · rcases List.mem_singleton.mp ht with rfl
        rfl
      · exact ih i t ht

/-- No reference to an imported local survives the transform, provided the
substitution covers the local, its values avoid it, and the local collides
with neither `require`, `exports`, nor a re-export specifier. -/
theorem rewriteStmts_kills (σ : List (String × Expr)) (L : String)
    (hA : (σ.find? (·.1 = L)).isSome = true)
    (hB : ∀ kv ∈ σ, occursExpr L kv.2 = false)
    (hexp : ¬ L = "exports") (hreq : ¬ L = "require") :
    ∀ (body : List TopStmt) (i : Nat),
      L ∉ exportSpecLocals ⟨body⟩ →
      ∀ t ∈ rewriteStmts σ body i, occursStmt L t = false := by
  have hexpB : (decide ("exports" = L)) = false := decide_eq_false (fun h => hexp h.symm)
  have hreqB : (decide ("require" = L)) = false := decide_eq_false (fun h => hreq h.symm)
  intro body
  induction body with
  | nil =>
    intro i _ t ht
    simp [rewriteStmts] at ht
  | cons s rest ih =>
    intro i hspec t ht
    cases s with
    | importDecl sp src =>
      simp only [rewriteStmts] at ht
      rcases List.mem_cons.mp ht with rfl | ht
      · simp [occursStmt, occursExpr, occursList, hreqB]
      · exact ih (i + 1) (by simpa [exportSpecLocals] using hspec) t ht
    | exportDefaultDecl e =>
      simp only [rewriteStmts, substStmt, rewriteExport] at ht
      rcases List.mem_append.mp ht with ht | ht
      · rcases List.mem_singleton.mp ht with rfl
        simp [occursStmt, occursExpr, hexpB, substExpr_kills σ L hA hB e]
      · exact ih i (by simpa [exportSpecLocals] using hspec) t ht
    | exportNamedDecl ds =>
      simp only [rewriteStmts, substStmt, rewriteExport] at ht
      rcases List.mem_append.mp ht with ht | ht
      · rcases List.mem_map.mp ht with ⟨d, hd, rfl⟩
        rcases List.mem_map.mp hd with ⟨d0, _, rfl⟩
        simp [occursStmt, occursExpr, hexpB, substExpr_kills σ L hA hB d0.2]
      · exact ih i (by simpa [exportSpecLocals] using hspec) t ht
    | exportSpecifiers sp =>
      simp only [rewriteStmts, substStmt, rewriteExport] at ht
      rcases List.mem_append.mp ht with ht | ht
      · rcases List.mem_map.mp ht with ⟨d, hd, rfl⟩
        have hdL : ¬ d.2 = L := by
          intro heq
          apply hspec
          simp only [exportSpecLocals, List.foldr_cons, List.mem_append]
          exact Or.inl (heq ▸ List.mem_map_of_mem (·.2) hd)
        simp [occursStmt, occursExpr, hexpB, hdL]
      · exact ih i (fun hmem => hspec (by
          simp only [exportSpecLocals, List.foldr_cons, List.mem_append]
          exact Or.inr (by simpa [exportSpecLocals] using hmem))) t ht
    | varDecl k n init =>
      simp only [rewriteStmts, substStmt, rewriteExport] at ht
      rcases List.mem_append.mp ht with ht | ht
      · rcases List.mem_singleton.mp ht with rfl
        simp [occursStmt, substExpr_kills σ L hA hB init]
      · exact ih i (by simpa [exportSpecLocals] using hspec) t ht
    | exprStmt e =>
      simp only [rewriteStmts, substStmt, rewriteExport] at ht
      rcases List.mem_append.mp ht with ht | ht
      · rcases List.mem_singleton.mp ht with rfl
        simp [occursStmt, substExpr_kills σ L hA hB e]
      · exact ih i (by simpa [exportSpecLocals] using hspec) t ht

/-- The `k`-th import declaration (in import order) becomes a `const`
declaration of the `k`-th uid initialized with `require` of its (already
resolved) source. -/
theorem rewriteStmts_import_mem (σ : List (String × Expr)) :
    ∀ (body : List TopStmt) (i k : Nat) (specs : List ImportSpec) (src : String),
      (importsOf ⟨body⟩).get? k = some (specs, src) →
      (TopStmt.varDecl "const" (uidName (i + k)) (.call (.ident "require") [.strLit src]))
        ∈ rewriteStmts σ body i := by
  intro body
  induction body with
  | nil =>
    intro i k specs src hget
    simp [importsOf] at hget
  | cons s rest ih =>
    intro i k specs src hget
    cases s with
    | importDecl sp0 src0 =>
      rw [importsOf_cons_import] at hget
      cases k with
      | zero =>
        simp only [List.get?_cons_zero, Option.some.injEq] at hget
        obtain ⟨rfl, rfl⟩ : sp0 = specs ∧ src0 = src := by simpa using hget
        simp only [rewriteStmts, Nat.add_zero]
        exact List.mem_cons_self _ _
      | succ k =>
        simp only [List.get?_cons_succ] at hget
        have := ih (i + 1) k specs src hget
        rw [show i + 1 + k = i + (k + 1) by omega] at this
        exact List.mem_cons_of_mem _ this
    | exportDefaultDecl e =>
      rw [importsOf_cons_other _ _ (by rfl)] at hget
      simp only [rewriteStmts, substStmt, rewriteExport]
      exact List.mem_append_right _ (ih i k specs src hget)
    | exportNamedDecl ds =>
      rw [importsOf_cons_other _ _ (by rfl)] at hget
      simp only [rewriteStmts, substStmt, rewriteExport]
      exact List.mem_append_right _ (ih i k specs src hget)
    | exportSpecifiers sp =>
      rw [importsOf_cons_other _ _ (by rfl)] at hget
      simp only [rewriteStmts, substStmt, rewriteExport]
      exact List.mem_append_right _ (ih i k specs src hget)
    | varDecl kd n init =>
      rw [importsOf_cons_other _ _ (by rfl)] at hget
      simp only [rewriteStmts, substStmt, rewriteExport]
      exact List.mem_append_right _ (ih i k specs src hget)
    | exprStmt e =>
      rw [importsOf_cons_other _ _ (by rfl)] at hget
      simp only [rewriteStmts, substStmt, rewriteExport]
      exact List.mem_append_right _ (ih i k specs src hget)

/-- C4: after dependency discovery (`findDependencies`, which overwrites
each import's source with its resolved path) and the module-interface transform,
(i) no import statement remains; (ii) the `k`-th import statement has become a
`const uid_k = require(<resolved canonical path>)` declaration — the argument
is the resolved path of the target, not the original specifier text; (iii) no
use site of any imported binding survives anywhere in the module — every
reference was rewritten; and (iv) each use site of a default-imported binding
is rewritten to the computed property access `uid_k["default"]`, reading the
`default` property (named imports read their imported name).  The
well-formedness hypotheses keep the embedded capture-free substitution in
agreement with babel's scope analysis. -/
theorem c4_transform_rewrites_imports (env : Env) (fp : String) (prog : Program)
    (hres : ∀ src ∈ importSources prog, (resolveRequest env fp src).isSome = true)
    (hnodup : (importLocals prog).Nodup)
    (hfresh : ∀ L ∈ importLocals prog,
      strStarts L "_imported" = false ∧ ¬ L = "require" ∧ ¬ L = "exports")
    (hspec : ∀ L ∈ importLocals prog, L ∉ exportSpecLocals prog) :
    (∀ s ∈ (transformProgram (rewriteSources env fp prog)).body, isImportStmt s = false) ∧
      (∀ k specs src, (importsOf prog).get? k = some (specs, src) →
        ∃ rp, resolveRequest env fp src = some rp ∧
          (TopStmt.varDecl "const" (uidName k) (.call (.ident "require") [.strLit rp]))
            ∈ (transformProgram (rewriteSources env fp prog)).body) ∧
      (∀ L ∈ importLocals prog,
        ∀ s ∈ (transformProgram (rewriteSources env fp prog)).body, occursStmt L s = false) ∧
      (∀ k specs src L, (importsOf prog).get? k = some (specs, src) →
        (ImportSpec.importDefault L) ∈ specs →
        (importSubst (rewriteSources env fp prog)).find? (·.1 = L)
          = some (L, .member (.ident (uidName k)) (.strLit "default") true)) := by
  set prog1 := rewriteSources env fp prog with hprog1
  have hbody : prog1 = ⟨prog1.body⟩ := rfl
  have himps : importsOf prog1
      = (importsOf prog).map (fun ip => (ip.1, (resolveRequest env fp ip.2).getD ip.2)) := by
    obtain ⟨body⟩ := prog
    exact importsOf_rewriteSources env fp body
  have hlocals : importLocals prog1 = importLocals prog :=
    importLocals_rewriteSources env fp prog
  have hkeys : (importSubst prog1).map (·.1) = importLocals prog1 := by
    unfold importSubst importLocals
    exact importSubstFrom_keys (importsOf prog1) 0
  have hA : ∀ L ∈ importLocals prog, ((importSubst prog1).find? (·.1 = L)).isSome = true := by
    intro L hL
    have hLmem : L ∈ (importSubst prog1).map (·.1) := by
      rw [hkeys, hlocals]
      exact hL
    rcases List.mem_map.mp hLmem with ⟨kv, hkv, hk1⟩
    exact List.find?_isSome.mpr ⟨kv, hkv, by simp [hk1]⟩
  have hB : ∀ L ∈ importLocals prog, ∀ kv ∈ importSubst prog1, occursExpr L kv.2 = false := by
    intro L hL kv hkv
    rcases importSubstFrom_val_shape (importsOf prog1) 0 kv hkv with ⟨j, key, hshape⟩
    rw [hshape]
    simp only [occursExpr, Bool.or_eq_false_iff]
    refine ⟨decide_eq_false (uidName_ne (hfresh L hL).1 j), by simp [occursExpr]⟩
  refine ⟨?_, ?_, ?_, ?_⟩
  · intro s hs
    exact rewriteStmts_no_import (importSubst prog1) prog1.body 0 s hs
  · intro k specs src hget
    have hsrc : src ∈ importSources prog := by
      have hmem := List.get?_mem hget
      unfold importSources
      exact List.mem_map_of_mem (·.2) hmem
    rcases Option.isSome_iff_exists.mp (hres src hsrc) with ⟨rp, hrp⟩
    refine ⟨rp, hrp, ?_⟩
    have hget1 : (importsOf prog1).get? k = some (specs, rp) := by
      rw [himps, List.get?_map, hget]
      simp [hrp]
    have := rewriteStmts_import_mem (importSubst prog1) prog1.body 0 k specs rp
      (by rw [← hbody]; exact hget1)
    simpa [transformProgram] using this
  · intro L hL s hs
    have hfr := hfresh L hL
    refine rewriteStmts_kills (importSubst prog1) L (hA L hL) (hB L hL)
      hfr.2.2 hfr.2.1 prog1.body 0 ?_ s hs
    rw [← hbody, exportSpecLocals_rewriteSources]
    exact hspec L hL
  · intro k specs src L hget hdef
    have hfold : ∀ (imps : List (List ImportSpec × String)) (ip0 : List ImportSpec × String),
        ip0 ∈ imps → L ∈ ip0.1.map specLocal →
        L ∈ imps.foldr (fun ip acc => ip.1.map specLocal ++ acc) [] := by
      intro imps
      induction imps with
      | nil =>
        intro ip0 h0 _
        simp at h0
      | cons ip rest ih =>
        intro ip0 h0 hL0
        simp only [List.foldr_cons, List.mem_append]
        rcases List.mem_cons.mp h0 with rfl | h0
        · exact Or.inl hL0
        · exact Or.inr (ih ip0 h0 hL0)
    have hget1 : (importsOf prog1).get? k = some (specs, (resolveRequest env fp src).getD src) := by
      rw [himps, List.get?_map, hget]
      rfl
    have hLmem : L ∈ importLocals prog := by
      rw [← hlocals]
      unfold importLocals
      refine hfold (importsOf prog1) (specs, (resolveRequest env fp src).getD src)
        (List.get?_mem hget1) ?_
      have : specLocal (ImportSpec.importDefault L) ∈ specs.map specLocal :=
        List.mem_map_of_mem specLocal hdef
      simpa [specLocal] using this
    have hnodup1 : ((importsOf prog1).foldr (fun ip acc => ip.1.map specLocal ++ acc) []).Nodup := by
      have : importLocals prog1 = (importsOf prog1).foldr (fun ip acc => ip.1.map specLocal ++ acc) [] := rfl
      rw [← this, hlocals]
      exact hnodup
    have := importSubstFrom_lookup (importsOf prog1) 0 k specs
      ((resolveRequest env fp src).getD src) (ImportSpec.importDefault L) hget1 hdef hnodup1
    simpa [importSubst, specLocal, specKey] using this

/-- Witness for C4 at `progW` (`import d, { n } from './b.js'` with both
bindings used) transformed for module `/a.js`. -/
theorem c4_transform_rewrites_imports_witness :
    ((∀ src ∈ importSources progW, (resolveRequest envEmpty "/a.js" src).isSome = true) ∧
        (importLocals progW).Nodup ∧
        (∀ L ∈ importLocals progW,
          strStarts L "_imported" = false ∧ ¬ L = "require" ∧ ¬ L = "exports") ∧
        (∀ L ∈ importLocals progW, L ∉ exportSpecLocals progW)) ∧
      ((∀ s ∈ (transformProgram (rewriteSources envEmpty "/a.js" progW)).body,
          isImportStmt s = false) ∧
        (∀ k specs src, (importsOf progW).get? k = some (specs, src) →
          ∃ rp, resolveRequest envEmpty "/a.js" src = some rp ∧
            (TopStmt.varDecl "const" (uidName k) (.call (.ident "require") [.strLit rp]))
              ∈ (transformProgram (rewriteSources envEmpty "/a.js" progW)).body) ∧
        (∀ L ∈ importLocals progW,
          ∀ s ∈ (transformProgram (rewriteSources envEmpty "/a.js" progW)).body,
            occursStmt L s = false) ∧
        (∀ k specs src L, (importsOf progW).get? k = some (specs, src) →
          (ImportSpec.importDefault L) ∈ specs →
          (importSubst (rewriteSources envEmpty "/a.js" progW)).find? (·.1 = L)
            = some (L, .member (.ident (uidName k)) (.strLit "default") true))) :=
  ⟨⟨by decide, by decide, by decide, by decide⟩,
    c4_transform_rewrites_imports envEmpty "/a.js" progW
      (by decide) (by decide) (by decide) (by decide)⟩

/-! ## Resolver lemmas -/

/-- `splitOnChar` always yields at least one chunk. -/
theorem splitOnChar_ne_nil (c : Char) : ∀ l : List Char, splitOnChar c l ≠ [] := by
  intro l
  induction l with
  | nil => simp [splitOnChar]
  | cons x xs ih =>
    simp only [splitOnChar]
    split
    · simp
    · split
      · simp
      · next heq => exact absurd heq ih

/-- A path whose first chunk is empty (followed by more chunks) starts with
the separator. -/
theorem startsSlash_of_split {r : String} {segs : List String}
    (hsplit : splitSlash r = "" :: segs) (hne : segs ≠ []) : r.data.head? = some '/' := by
  unfold splitSlash at hsplit
  cases hr : r.data with
  | nil =>
    rw [hr] at hsplit
    simp only [splitOnChar, List.map_cons, List.map_nil] at hsplit
    injection hsplit with h1 h2
    exact absurd h2.symm hne
  | cons x xs =>
    rw [hr] at hsplit
    simp only [splitOnChar] at hsplit
    by_cases hx : x = '/'
    · simp [hx]
    · rw [if_neg hx] at hsplit
      rcases hh : splitOnChar '/' xs with _ | ⟨h0, t0⟩
      · exact absurd hh (splitOnChar_ne_nil '/' xs)
      · rw [hh] at hsplit
        simp only [List.map_cons, List.cons.injEq] at hsplit
        have : (x :: h0 : List Char) = ("" : String).data := congrArg String.data hsplit.1
        simp at this

/-- `lastIdxOf` finds something when the head matches. -/
theorem lastIdxOf_isSome_of_head {c : Char} :
    ∀ {l : List Char}, l.head? = some c → (lastIdxOf c l).isSome = true := by
  intro l h
  cases l with
  | nil => simp at h
  | cons x xs =>
    simp only [List.head?_cons, Option.some.injEq] at h
    subst h
    simp only [lastIdxOf]
    split
    · simp
    · simp

/-- The directory of an absolute path is absolute. -/
theorem startsSlash_dirname {r : String} (h : r.data.head? = some '/') :
    startsSlash (dirname r) = true := by
  unfold dirname
  rcases hidx : lastIdxOf '/' r.data with _ | i
  · have := lastIdxOf_isSome_of_head h
    rw [hidx] at this
    cases this
  · cases i with
    | zero => rfl
    | succ i =>
      cases hr : r.data with
      | nil => simp [hr] at h
      | cons x xs =>
        simp only [hr, List.head?_cons, Option.some.injEq] at h
        subst h
        simp [startsSlash, hr, List.take_succ_cons]

/-- Prefixing keeps absoluteness under concatenation. -/
theorem startsSlash_append {a : String} (b : String) (h : startsSlash a = true) :
    startsSlash (a ++ b) = true := by
  unfold startsSlash at *
  rw [strData_append]
  cases ha : a.data with
  | nil => rw [ha] at h; simp at h
  | cons x xs =>
    rw [ha] at h
    simpa using h

/-- In absolute mode the normalization stack only ever holds clean segments
(no empty, no `.`, no `..`). -/
theorem normalizeSegs_clean :
    ∀ (l stack : List String), (∀ s ∈ stack, s ≠ "" ∧ s ≠ "." ∧ s ≠ "..") →
      ∀ s ∈ normalizeSegs true stack l, s ≠ "" ∧ s ≠ "." ∧ s ≠ ".." := by
  intro l
  induction l with
  | nil =>
    intro stack hst s hs
    simp only [normalizeSegs, List.mem_reverse] at hs
    exact hst s hs
  | cons x rest ih =>
    intro stack hst s hs
    by_cases hx0 : x = "" ∨ x = "."
    · have hstep : normalizeSegs true stack (x :: rest) = normalizeSegs true stack rest := by
        simp only [normalizeSegs]
        rw [if_pos (by simpa using hx0)]
      rw [hstep] at hs
      exact ih stack hst s hs
    · push_neg at hx0
      by_cases hx2 : x = ".."
      · subst hx2
        cases stack with
        | nil =>
          have hstep : normalizeSegs true [] (".." :: rest) = normalizeSegs true [] rest := by
            simp [normalizeSegs]
          rw [hstep] at hs
          exact ih [] (by simp) s hs
        | cons t st =>
          have ht : ¬ t = ".." := (hst t (by simp)).2.2
          have hstep : normalizeSegs true (t :: st) (".." :: rest)
              = normalizeSegs true st rest := by
            simp [normalizeSegs, ht]
          rw [hstep] at hs
          exact ih st (fun u hu => hst u (by simp [hu])) s hs
      · have hstep : normalizeSegs true stack (x :: rest)
            = normalizeSegs true (x :: stack) rest := by
          simp only [normalizeSegs]
          rw [if_neg (by simp [hx0.1, hx0.2]), if_neg hx2]
        rw [hstep] at hs
        refine ih (x :: stack) ?_ s hs
        intro u hu
        rcases List.mem_cons.mp hu with rfl | hu
        · exact ⟨hx0.1, hx0.2, hx2⟩
        · exact hst u hu

/-- Structure of an absolute normalized path: a clean segment list rendered
under the root. -/
theorem pathJoin_abs_clean {a : String} (b : String) (h : startsSlash a = true) :
    ∃ osegs, pathJoin a b = dirFromSegs osegs ∧
      ∀ s ∈ osegs, s ≠ "" ∧ s ≠ "." ∧ s ≠ ".." := by
  unfold pathJoin normalizePath
  have habs : startsSlash (a ++ "/" ++ b) = true :=
    startsSlash_append b (startsSlash_append "/" h)
  rw [habs]
  simp only [if_pos]
  refine ⟨normalizeSegs true [] (splitSlash (a ++ "/" ++ b)), ?_,
    normalizeSegs_clean _ [] (by simp)⟩
  split
  · next hnil => rw [hnil]; rfl
  · next hnil =>
    rcases hsegs : normalizeSegs true [] (splitSlash (a ++ "/" ++ b)) with _ | ⟨s0, t0⟩
    · exact absurd hsegs hnil
    · rfl

/-- A slash-join of a nonempty clean head is a nonempty string. -/
theorem joinSep_ne_empty {a : String} (t : List String) (ha : a ≠ "") :
    joinSep "/" (a :: t) ≠ "" := by
  cases t with
  | nil => simpa [joinSep] using ha
  | cons y t' =>
    intro h
    have hd := congrArg String.data h
    rw [show joinSep "/" (a :: y :: t') = a ++ "/" ++ joinSep "/" (y :: t') from rfl] at hd
    rw [strData_append, strData_append] at hd
    simp at hd

/-- A rooted nonempty directory is not the bare root. -/
theorem rootJoin_ne_root {x : String} (hx : x ≠ "") : ¬ ("/" ++ x = "/") := by
  intro h
  have hd := congrArg String.data h
  rw [strData_append] at hd
  have hlen := congrArg List.length hd
  rw [List.length_append] at hlen
  have hx0 : x.data = [] := List.length_eq_zero.mp (by omega)
  exact hx (String.ext (by rw [hx0]))

/-- The source's candidate loop produces exactly the spec's ancestor
candidates (closest first, ending at the filesystem root). -/
theorem requestPathsFor_eq_specCands (segs : List String) (hnn : "" ∉ segs) :
    ∀ m, m ≤ segs.length →
      requestPathsFor ("" :: segs) m
        = (specAncestorDirsRec segs.dropLast m).map
            (fun d => if d = "/" then "/node_modules" else d ++ "/node_modules") := by
  intro m
  induction m with
  | zero => intro _; rfl
  | succ i ih =>
    intro hm
    simp only [requestPathsFor, specAncestorDirsRec, List.map_cons]
    congr 1
    · rw [List.take_succ_cons]
      cases i with
      | zero => simp [joinSep, dirFromSegs, String.empty_append]
      | succ i' =>
        have htake_eq : segs.dropLast.take (i' + 1) = segs.take (i' + 1) := by
          rw [List.dropLast_eq_take, List.take_take]
          congr 1
          omega
        rcases hsegs : segs.take (i' + 1) with _ | ⟨a, t⟩
        · rcases List.take_eq_nil_iff.mp hsegs with h | h
          · cases h
          · rw [h] at hm
            simp at hm
        · have ha : a ≠ "" := by
            intro h
            exact hnn (h ▸ List.take_subset (i' + 1) segs (hsegs ▸ List.mem_cons_self a t))
          have hne' : ¬ (dirFromSegs (a :: t) = "/") := by
            rw [show dirFromSegs (a :: t) = "/" ++ joinSep "/" (a :: t) from rfl]
            exact rootJoin_ne_root (joinSep_ne_empty t ha)
          rw [htake_eq, hsegs, if_neg hne']
          rw [show dirFromSegs (a :: t) = "/" ++ joinSep "/" (a :: t) from rfl]
          rw [show joinSep "/" ("" :: a :: t) = "" ++ "/" ++ joinSep "/" (a :: t) from rfl]
          rw [String.empty_append]
    · exact ih (by omega)

/-- First-match semantics of `findSome?`: a hit comes from the earliest
candidate that resolves, all earlier candidates resolving to nothing. -/
theorem findSome?_first {α β : Type} (f : α → Option β) :
    ∀ (l : List α) (r : β), l.findSome? f = some r →
      ∃ i d, l.get? i = some d ∧ f d = some r ∧
        ∀ j d', j < i → l.get? j = some d' → f d' = none := by
  intro l
  induction l with
  | nil =>
    intro r h
    simp at h
  | cons a t ih =>
    intro r h
    rcases hfa : f a with _ | b
    · have h' : t.findSome? f = some r := by
        rw [List.findSome?_cons, hfa] at h
        exact h
      rcases ih r h' with ⟨i, d, hget, hfd, hearlier⟩
      refine ⟨i + 1, d, by simpa using hget, hfd, ?_⟩
      intro j d' hj hget'
      cases j with
      | zero =>
        simp only [List.get?_cons_zero, Option.some.injEq] at hget'
        rw [← hget']
        exact hfa
      | succ j =>
        simp only [List.get?_cons_succ] at hget'
        exact hearlier j d' (by omega) hget'
    · have h' : b = r := by
        rw [List.findSome?_cons, hfa] at h
        exact Option.some.inj h
      refine ⟨0, a, rfl, by rw [hfa, h'], ?_⟩
      intro j d' hj
      omega

/-- C5: `resolveRequest`.  For a specifier starting with the relative marker
`.`, the result is the specifier joined against the requester's containing
directory, normalized (the result is a rooted render of a segment list free of
empty, `.` and `..` segments).  For a bare specifier, the candidate list the
source builds by slicing the requester's split path equals the spec's
ancestor walk — from the immediate parent up to the filesystem root, with
`node_modules` appended at each level, closest first — and the result is the
first candidate match of the platform's per-directory package resolution. -/
theorem c5_resolve_request (env : Env) (requester : String) (segs : List String)
    (hsplit : splitSlash requester = "" :: segs)
    (hne : segs ≠ []) (hnn : "" ∉ segs) :
    (∀ spec : String, spec.data.head? = some '.' →
      resolveRequest env requester spec = some (pathJoin (dirname requester) spec) ∧
      ∃ osegs, pathJoin (dirname requester) spec = dirFromSegs osegs ∧
        ∀ s ∈ osegs, s ≠ "" ∧ s ≠ "." ∧ s ≠ "..") ∧
    (∀ spec : String, ¬ spec.data.head? = some '.' →
      resolveRequest env requester spec
        = (specAncestorCandidates segs).findSome? (fun d => env.pkgResolve d spec) ∧
      (∀ r, resolveRequest env requester spec = some r →
        ∃ i d, (specAncestorCandidates segs).get? i = some d ∧
          env.pkgResolve d spec = some r ∧
          ∀ j d', j < i → (specAncestorCandidates segs).get? j = some d' →
            env.pkgResolve d' spec = none)) := by
  have habs := startsSlash_of_split hsplit hne
  have hcand : requestPathsFor (splitSlash requester) ((splitSlash requester).length - 1)
      = specAncestorCandidates segs := by
    rw [hsplit]
    have hlen : ("" :: segs).length - 1 = segs.length := by simp
    rw [hlen]
    unfold specAncestorCandidates
    have hlen2 : segs.dropLast.length + 1 = segs.length := by
      rw [List.length_dropLast]
      have : 0 < segs.length := List.length_pos.mpr hne
      omega
    rw [hlen2]
    exact requestPathsFor_eq_specCands segs hnn segs.length le_rfl
  constructor
  · intro spec hdot
    refine ⟨?_, pathJoin_abs_clean spec (startsSlash_dirname habs)⟩
    unfold resolveRequest
    rw [if_pos hdot]
  · intro spec hdot
    have hres : resolveRequest env requester spec
        = (specAncestorCandidates segs).findSome? (fun d => env.pkgResolve d spec) := by
      unfold resolveRequest
      rw [if_neg hdot]
      unfold requireResolve
      show List.findSome? (fun d => env.pkgResolve d spec)
          (requestPathsFor (splitSlash requester) ((splitSlash requester).length - 1))
        = _
      rw [hcand]
    exact ⟨hres, fun r hr => findSome?_first _ _ r (hres ▸ hr)⟩

/-- Witness for C5 at requester `/proj/src/a.js` (segments
`proj`, `src`, `a.js`) over the empty environment. -/
theorem c5_resolve_request_witness :
    (splitSlash "/proj/src/a.js" = "" :: ["proj", "src", "a.js"] ∧
        (["proj", "src", "a.js"] : List String) ≠ [] ∧
        "" ∉ (["proj", "src", "a.js"] : List String)) ∧
      ((∀ spec : String, spec.data.head? = some '.' →
          resolveRequest envEmpty "/proj/src/a.js" spec
            = some (pathJoin (dirname "/proj/src/a.js") spec) ∧
          ∃ osegs, pathJoin (dirname "/proj/src/a.js") spec = dirFromSegs osegs ∧
            ∀ s ∈ osegs, s ≠ "" ∧ s ≠ "." ∧ s ≠ "..") ∧
        (∀ spec : String, ¬ spec.data.head? = some '.' →
          resolveRequest envEmpty "/proj/src/a.js" spec
            = (specAncestorCandidates ["proj", "src", "a.js"]).findSome?
                (fun d => envEmpty.pkgResolve d spec) ∧
          (∀ r, resolveRequest envEmpty "/proj/src/a.js" spec = some r →
            ∃ i d, (specAncestorCandidates ["proj", "src", "a.js"]).get? i = some d ∧
              envEmpty.pkgResolve d spec = some r ∧
              ∀ j d', j < i →
                (specAncestorCandidates ["proj", "src", "a.js"]).get? j = some d' →
                  envEmpty.pkgResolve d' spec = none))) :=
  ⟨⟨by decide, by decide, by decide⟩,
    c5_resolve_request envEmpty "/proj/src/a.js" ["proj", "src", "a.js"]
      (by decide) (by decide) (by decide)⟩

/-! ## Structure of the CSS transform -/

/-- Splitting a separator-free list yields one chunk. -/
theorem splitOnChar_no_sep {c : Char} : ∀ {l : List Char}, c ∉ l → splitOnChar c l = [l] := by
  intro l
  induction l with
  | nil => intro _; rfl
  | cons x xs ih =>
    intro h
    have hx : ¬ x = c := fun hh => h (by simp [hh])
    have hxs : c ∉ xs := fun hh => h (by simp [hh])
    simp only [splitOnChar, if_neg hx, ih hxs]

/-- Splitting after a separator-free block peels off that block. -/
theorem splitOnChar_append {c : Char} :
    ∀ {a : List Char} (b : List Char), c ∉ a →
      splitOnChar c (a ++ c :: b) = a :: splitOnChar c b := by
  intro a
  induction a with
  | nil =>
    intro b _
    simp [splitOnChar]
  | cons x a' ih =>
    intro b h
    have hx : ¬ x = c := fun hh => h (by simp [hh])
    have ha' : c ∉ a' := fun hh => h (by simp [hh])
    simp only [List.cons_append, splitOnChar, if_neg hx, List.append_eq]
    rw [ih b ha']

set_option maxRecDepth 16384

/-- The CSS transform is exactly the trimmed style-injection script with the
newline-stripped stylesheet text spliced into the quoted literal. -/
theorem cssTransform_eq (raw : String) :
    cssTransform raw = cssInjected (stripNewlines raw) := by
  set t := stripNewlines raw with ht
  have htn : '\n' ∉ t.data := by
    rw [ht]
    simp [stripNewlines]
  have hnA : '\n' ∉ ("      const content = \x27" : String).data ++ t.data ++ ("\x27;" : String).data := by
    intro hmem
    rcases List.mem_append.mp hmem with hmem | hmem
    · rcases List.mem_append.mp hmem with hmem | hmem
      · exact absurd hmem (by decide)
      · exact htn hmem
    · exact absurd hmem (by decide)
  have h1 : (cssTemplate t).data = '\n' :: (("      const content = \x27" : String).data ++ (t.data ++ ("\x27;\n      const style = document.createElement(\x27style\x27);\n      style.type = \x27text/css\x27;\n      if (style.styleSheet) style.styleSheet.cssText = content;\n      else style.appendChild(document.createTextNode(content));\n      document.head.appendChild(style);\n    " : String).data)) := by
    simp [cssTemplate, strData_append, List.append_assoc]
  have h3 : splitOnChar '\n' (cssTemplate t).data
      = [] :: (("      const content = \x27" : String).data ++ t.data ++ ("\x27;" : String).data) :: splitOnChar '\n' ("      const style = document.createElement(\x27style\x27);\n      style.type = \x27text/css\x27;\n      if (style.styleSheet) style.styleSheet.cssText = content;\n      else style.appendChild(document.createTextNode(content));\n      document.head.appendChild(style);\n    " : String).data := by
    rw [h1]
    rw [show splitOnChar '\n' ('\n' :: (("      const content = \x27" : String).data ++ (t.data ++ ("\x27;\n      const style = document.createElement(\x27style\x27);\n      style.type = \x27text/css\x27;\n      if (style.styleSheet) style.styleSheet.cssText = content;\n      else style.appendChild(document.createTextNode(content));\n      document.head.appendChild(style);\n    " : String).data)))
        = [] :: splitOnChar '\n' (("      const content = \x27" : String).data ++ (t.data ++ ("\x27;\n      const style = document.createElement(\x27style\x27);\n      style.type = \x27text/css\x27;\n      if (style.styleSheet) style.styleSheet.cssText = content;\n      else style.appendChild(document.createTextNode(content));\n      document.head.appendChild(style);\n    " : String).data)) from rfl]
    rw [show ("\x27;\n      const style = document.createElement(\x27style\x27);\n      style.type = \x27text/css\x27;\n      if (style.styleSheet) style.styleSheet.cssText = content;\n      else style.appendChild(document.createTextNode(content));\n      document.head.appendChild(style);\n    " : String).data = ("\x27;" : String).data ++ '\n' :: ("      const style = document.createElement(\x27style\x27);\n      style.type = \x27text/css\x27;\n      if (style.styleSheet) style.styleSheet.cssText = content;\n      else style.appendChild(document.createTextNode(content));\n      document.head.appendChild(style);\n    " : String).data from rfl]
    rw [show ("      const content = \x27" : String).data ++ (t.data ++ (("\x27;" : String).data ++ '\n' :: ("      const style = document.createElement(\x27style\x27);\n      style.type = \x27text/css\x27;\n      if (style.styleSheet) style.styleSheet.cssText = content;\n      else style.appendChild(document.createTextNode(content));\n      document.head.appendChild(style);\n    " : String).data))
        = (("      const content = \x27" : String).data ++ t.data ++ ("\x27;" : String).data) ++ '\n' :: ("      const style = document.createElement(\x27style\x27);\n      style.type = \x27text/css\x27;\n      if (style.styleSheet) style.styleSheet.cssText = content;\n      else style.appendChild(document.createTextNode(content));\n      document.head.appendChild(style);\n    " : String).data by simp [List.append_assoc]]
    rw [splitOnChar_append _ hnA]
  have hAne : ¬ (("      const content = \x27" : String).data ++ t.data ++ ("\x27;" : String).data) = [] := by
    intro hnil
    have hlen := congrArg List.length hnil
    simp only [List.length_append, List.length_nil] at hlen
    rw [show ("      const content = \x27" : String).data.length = 23 from rfl, show ("\x27;" : String).data.length = 2 from rfl] at hlen
    omega
  have h5 : ((splitOnChar '\n' (cssTemplate t).data).filter (· ≠ []))
      = (("      const content = \x27" : String).data ++ t.data ++ ("\x27;" : String).data) :: [("      const style = document.createElement(\x27style\x27);" : String).data, ("      style.type = \x27text/css\x27;" : String).data, ("      if (style.styleSheet) style.styleSheet.cssText = content;" : String).data, ("      else style.appendChild(document.createTextNode(content));" : String).data, ("      document.head.appendChild(style);" : String).data, ("    " : String).data] := by
    rw [h3, show splitOnChar '\n' ("      const style = document.createElement(\x27style\x27);\n      style.type = \x27text/css\x27;\n      if (style.styleSheet) style.styleSheet.cssText = content;\n      else style.appendChild(document.createTextNode(content));\n      document.head.appendChild(style);\n    " : String).data = [("      const style = document.createElement(\x27style\x27);" : String).data, ("      style.type = \x27text/css\x27;" : String).data, ("      if (style.styleSheet) style.styleSheet.cssText = content;" : String).data, ("      else style.appendChild(document.createTextNode(content));" : String).data, ("      document.head.appendChild(style);" : String).data, ("    " : String).data] from rfl]
    rw [List.filter_cons_of_neg (by simp)]
    rw [List.filter_cons_of_pos (by simp [hAne])]
    rfl
  have h6 : trimSource (cssTemplate t)
      = ⟨joinSepL '\n' ((("const content = \x27" : String).data ++ t.data ++ ("\x27;" : String).data) :: [("const style = document.createElement(\x27style\x27);" : String).data, ("style.type = \x27text/css\x27;" : String).data, ("if (style.styleSheet) style.styleSheet.cssText = content;" : String).data, ("else style.appendChild(document.createTextNode(content));" : String).data, ("document.head.appendChild(style);" : String).data, ("    " : String).data])⟩ := by
    unfold trimSource
    rw [h5]
    show (⟨joinSepL '\n' (((("      const content = \x27" : String).data ++ t.data ++ ("\x27;" : String).data) :: [("      const style = document.createElement(\x27style\x27);" : String).data, ("      style.type = \x27text/css\x27;" : String).data, ("      if (style.styleSheet) style.styleSheet.cssText = content;" : String).data, ("      else style.appendChild(document.createTextNode(content));" : String).data, ("      document.head.appendChild(style);" : String).data, ("    " : String).data]).map
        (stripPadL (countLeadWs (("      const content = \x27" : String).data ++ t.data ++ ("\x27;" : String).data))))⟩ : String) = _
    rw [show countLeadWs (("      const content = \x27" : String).data ++ t.data ++ ("\x27;" : String).data) = 6 by
      simp [countLeadWs, isWsChar, List.cons_append]]
    rw [List.map_cons]
    rw [show stripPadL 6 (("      const content = \x27" : String).data ++ t.data ++ ("\x27;" : String).data) = ("const content = \x27" : String).data ++ t.data ++ ("\x27;" : String).data by
      simp [stripPadL, isWsChar, List.cons_append]]
    rw [show ([("      const style = document.createElement(\x27style\x27);" : String).data, ("      style.type = \x27text/css\x27;" : String).data, ("      if (style.styleSheet) style.styleSheet.cssText = content;" : String).data, ("      else style.appendChild(document.createTextNode(content));" : String).data, ("      document.head.appendChild(style);" : String).data, ("    " : String).data] : List (List Char)).map (stripPadL 6) = [("const style = document.createElement(\x27style\x27);" : String).data, ("style.type = \x27text/css\x27;" : String).data, ("if (style.styleSheet) style.styleSheet.cssText = content;" : String).data, ("else style.appendChild(document.createTextNode(content));" : String).data, ("document.head.appendChild(style);" : String).data, ("    " : String).data] from rfl]
  show trimSource (cssTemplate t) = cssInjected t
  rw [h6]
  apply String.ext
  show joinSepL '\n' ((("const content = \x27" : String).data ++ t.data ++ ("\x27;" : String).data) :: [("const style = document.createElement(\x27style\x27);" : String).data, ("style.type = \x27text/css\x27;" : String).data, ("if (style.styleSheet) style.styleSheet.cssText = content;" : String).data, ("else style.appendChild(document.createTextNode(content));" : String).data, ("document.head.appendChild(style);" : String).data, ("    " : String).data]) = (cssInjected t).data
  rw [show joinSepL '\n' ((("const content = \x27" : String).data ++ t.data ++ ("\x27;" : String).data) :: [("const style = document.createElement(\x27style\x27);" : String).data, ("style.type = \x27text/css\x27;" : String).data, ("if (style.styleSheet) style.styleSheet.cssText = content;" : String).data, ("else style.appendChild(document.createTextNode(content));" : String).data, ("document.head.appendChild(style);" : String).data, ("    " : String).data])
      = (("const content = \x27" : String).data ++ t.data ++ ("\x27;" : String).data) ++ '\n' :: ("const style = document.createElement(\x27style\x27);\nstyle.type = \x27text/css\x27;\nif (style.styleSheet) style.styleSheet.cssText = content;\nelse style.appendChild(document.createTextNode(content));\ndocument.head.appendChild(style);\n    " : String).data from rfl]
  simp [cssInjected, strData_append, List.append_assoc]

set_option maxHeartbeats 2000000

/-- C8 (amended): a stylesheet module always has an empty dependencies list,
and its content is exactly the trimmed style-injection script whose quoted
literal holds the stylesheet text with the newlines removed (the transform
strips `\n` before splicing, so the text is not literal for multi-line
stylesheets — see `c8_css_modules_counterexample`). -/
theorem c8_css_modules (env : Env) (fuel : Nat) (p : String) (c : Cache) (raw : String)
    (hmiss : cacheHas c p = false) (hext : extname p = ".css")
    (hread : envRead env p = some raw) :
    ∃ m : Module, createModule env (fuel + 1) p c = (cacheSet c p m, .ok p) ∧
      m.deps = [] ∧ m.content = cssInjected (stripNewlines raw) := by
  refine ⟨⟨.css, p, cssTransform raw, ⟨[]⟩, []⟩, ?_, rfl, cssTransform_eq raw⟩
  have hmiss' : ¬ cacheHas c p = true := by simp [hmiss]
  simp [createModule, hmiss', hext, MODULE_LOADERS, hread]

/-- Counterexample for C8 as stated: for the two-line stylesheet `a{}\nb{}`
the transformed content does not contain the literal stylesheet text (the
newline was removed), even though that content is exactly what the loaded
module carries. -/
theorem c8_css_modules_counterexample :
    ((cacheGet (createModule envCssW 1 "/s.css" []).1 "/s.css").map (·.content)
        = some (cssTransform "a\x7b\x7d\nb\x7b\x7d")) ∧
      strContains (cssTransform "a\x7b\x7d\nb\x7b\x7d") "a\x7b\x7d\nb\x7b\x7d" = false :=
  ⟨rfl, rfl⟩

/-- Witness for C8 at the stylesheet `/s.css` of `envCssW`. -/
theorem c8_css_modules_witness :
    (cacheHas ([] : Cache) "/s.css" = false ∧ extname "/s.css" = ".css" ∧
        envRead envCssW "/s.css" = some "a\x7b\x7d\nb\x7b\x7d") ∧
      (∃ m : Module,
        createModule envCssW 1 "/s.css" [] = (cacheSet [] "/s.css" m, .ok "/s.css") ∧
        m.deps = [] ∧ m.content = cssInjected (stripNewlines "a\x7b\x7d\nb\x7b\x7d")) :=
  ⟨⟨rfl, rfl, rfl⟩, c8_css_modules envCssW 0 "/s.css" [] "a\x7b\x7d\nb\x7b\x7d" rfl rfl rfl⟩


set_option maxRecDepth 65536
set_option maxHeartbeats 2000000

/-! ## Build-level cache persistence (C6) -/

/-- `toModuleMapGo` never removes cache entries. -/
theorem toModuleMapGo_has {p : String} :
    ∀ (mods : List String) (c c2 : Cache) (s : String),
      toModuleMapGo mods c = some (c2, s) → cacheHas c p = true → cacheHas c2 p = true := by
  intro mods
  induction mods with
  | nil =>
    intro c c2 s h hc
    simp only [toModuleMapGo, Option.some.injEq, Prod.mk.injEq] at h
    exact h.1 ▸ hc
  | cons q rest ih =>
    intro c c2 s h hc
    simp only [toModuleMapGo] at h
    split at h
    · exact absurd h (by simp)
    · next m hm =>
      split at h
      · exact absurd h (by simp)
      · next cr sr hrec =>
        simp only [Option.some.injEq, Prod.mk.injEq] at h
        obtain ⟨rfl, rfl⟩ := h
        exact ih _ _ _ hrec (cacheHas_cacheSet.mpr (Or.inl hc))

/-- A successful `bundle` never removes cache entries. -/
theorem bundle_ok_has {c c2 : Cache} {fuel : Nat} {root p : String} {outs : List OutputFile}
    (h : bundle c fuel root = .ok (c2, outs)) (hc : cacheHas c p = true) :
    cacheHas c2 p = true := by
  simp only [bundle] at h
  split at h
  · exact absurd h (by simp)
  · split at h
    · exact absurd h (by simp)
    · next c1 mm hmap =>
      split at h
      · exact absurd h (by simp)
      · simp only [Except.ok.injEq, Prod.mk.injEq] at h
        obtain ⟨rfl, rfl⟩ := h
        simp only [toModuleMap, Option.map_eq_some'] at hmap
        obtain ⟨⟨ca, sa⟩, hgo, hpair⟩ := hmap
        simp only [Prod.mk.injEq] at hpair
        exact hpair.1 ▸ toModuleMapGo_has _ _ _ _ hgo hc

/-- C6 (amended): the module cache is *not* build-scoped — it outlives the
build that filled it.  A successful build leaves its entry module in the
cache, and a later `createDependencyGraph` for the same entry — under *any*
environment, even one whose files have changed — returns that cache unchanged
with the stale module (see `c6_module_cache_not_build_scoped_counterexample`
for a second build serving stale content). -/
theorem c6_module_cache_not_build_scoped (env env2 : Env) (fuel fuel2 : Nat)
    (input : BuildInput) (c c1 : Cache) (outs : List OutputFile)
    (h : build env fuel input c = (c1, .ok outs)) :
    cacheHas c1 input.entryFile = true ∧
    createDependencyGraph env2 (fuel2 + 1) input.entryFile c1 = (c1, .ok input.entryFile) := by
  have hhas : cacheHas c1 input.entryFile = true := by
    simp only [build] at h
    split at h
    · exact absurd h (by simp)
    · next cg root hg =>
      split at h
      · exact absurd h (by simp)
      · next c2 files hb =>
        have hcg : cacheHas cg input.entryFile = true :=
          (createModule_ok env fuel input.entryFile c cg root hg).2
        have hc2 : cacheHas c2 input.entryFile = true := bundle_ok_has hb hcg
        split at h
        · exact absurd h (by simp)
        · simp only [Prod.mk.injEq] at h
          exact h.1 ▸ hc2
  exact ⟨hhas, createModule_hit env2 fuel2 hhas⟩

/-- Witness for C6 at `envA` (first build) and `envB` (second environment). -/
theorem c6_module_cache_not_build_scoped_witness :
    (build envA 2 inputA []
        = ((build envA 2 inputA []).1, .ok (exceptGetD [] (build envA 2 inputA []).2))) ∧
    (cacheHas (build envA 2 inputA []).1 "/e.js" = true ∧
      createDependencyGraph envB 3 "/e.js" (build envA 2 inputA []).1
        = ((build envA 2 inputA []).1, .ok "/e.js")) :=
  ⟨rfl,
    c6_module_cache_not_build_scoped envA envB 2 2 inputA []
      (build envA 2 inputA []).1 (exceptGetD [] (build envA 2 inputA []).2) rfl⟩

/-- Counterexample for C6 as stated (build-scoped cache, "a second build
observes no modules loaded by the first"): after building `envA` (entry
content `AAAA`), a second build over the same process cache with `envB`
(entry content now `BBBB`) serves the stale first-build module — every
artifact it writes lacks `BBBB` and the written output still carries
`AAAA`. -/
theorem c6_module_cache_not_build_scoped_counterexample :
    ((cacheGet (build envA 2 inputA []).1 "/e.js").map (fun m => m.content)
        = some "\"AAAA\";") ∧
    strContains
        (joinSep "" ((buildWrites envB 2 inputA (build envA 2 inputA []).1).map (fun w => w.2)))
        "AAAA" = true ∧
    strContains
        (joinSep "" ((buildWrites envB 2 inputA (build envA 2 inputA []).1).map (fun w => w.2)))
        "BBBB" = false :=
  ⟨rfl, rfl, rfl⟩

/-! ## Unsupported extensions (C7) -/

/-- An infix whose left and right context are split off occurs in the whole. -/
theorem strContains_append_self (a mid b : String) :
    strContains (a ++ mid ++ b) mid = true := by
  simp only [strContains, List.any_eq_true, List.mem_range]
  refine ⟨a.data.length, ?_, ?_⟩
  · simp only [strData_append, List.length_append]
    omega
  · have hdata : (a ++ mid ++ b).data = a.data ++ (mid.data ++ b.data) := by
      simp [strData_append, List.append_assoc]
    rw [hdata, List.drop_left]
    exact listIsPre_append_self _ _

/-- `NewClosed` holds trivially of an unchanged cache. -/
theorem NewClosed_refl (env : Env) (c : Cache) : NewClosed env c c := by
  intro q hq0 hq2
  rw [hq0] at hq2
  cases hq2

/-- `NewClosed` composes along cache growth. -/
theorem NewClosed_trans (env : Env) {c c1 c2 : Cache}
    (h1 : NewClosed env c c1) (h2 : NewClosed env c1 c2)
    (hmono : ∀ t, cacheHas c1 t = true → cacheHas c2 t = true) :
    NewClosed env c c2 := by
  intro q hq0 hq2
  cases hx : cacheHas c1 q with
  | true =>
    obtain ⟨hl, ht⟩ := h1 q hq0 hx
    exact ⟨hl, fun t htmem => hmono t (ht t htmem)⟩
  | false => exact h2 q hx hq2

/-- A successful dependency loop resolved every import source and left each
resolved target in the final cache. -/
theorem loadDepsWith_ok_resolved {rec : String → Cache → Cache × Except BuildErr String}
    (hmono : ∀ p c q, cacheHas c q = true → cacheHas (rec p c).1 q = true)
    (hok : ∀ p c c2 k, rec p c = (c2, .ok k) → cacheHas c2 p = true)
    (env : Env) (self : String) :
    ∀ (srcs : List String) (c : Cache) (acc : List String) (c2 : Cache) (deps : List String),
      loadDepsWith rec env self srcs c acc = (c2, .ok deps) →
      ∀ src ∈ srcs, ∃ rp, resolveRequest env self src = some rp ∧ cacheHas c2 rp = true := by
  intro srcs
  induction srcs with
  | nil =>
    intro c acc c2 deps _ src hsrc
    cases hsrc
  | cons s rest ih =>
    intro c acc c2 deps h src hsrc
    simp only [loadDepsWith] at h
    split at h
    · simp at h
    · next rp hrp =>
      split at h
      · next c1 key heq =>
        rcases List.mem_cons.mp hsrc with rfl | hmem
        · refine ⟨rp, hrp, ?_⟩
          have hx := loadDepsWith_mono hmono env self rest c1 (key :: acc) rp
            (hok rp c c1 key heq)
          rw [h] at hx
          exact hx
        · exact ih c1 (key :: acc) c2 deps h src hmem
      · simp at h

/-- A successful dependency loop preserves `NewClosed`, given the recursive
loader does. -/
theorem loadDepsWith_newClosed (env : Env) (self : String)
    {rec : String → Cache → Cache × Except BuildErr String}
    (hmono : ∀ p c q, cacheHas c q = true → cacheHas (rec p c).1 q = true)
    (hrec : ∀ p c c2 k, rec p c = (c2, .ok k) → NewClosed env c c2) :
    ∀ (srcs : List String) (c : Cache) (acc : List String) (c2 : Cache) (deps : List String),
      loadDepsWith rec env self srcs c acc = (c2, .ok deps) → NewClosed env c c2 := by
  intro srcs
  induction srcs with
  | nil =>
    intro c acc c2 deps h
    simp only [loadDepsWith, Prod.mk.injEq, Except.ok.injEq] at h
    exact h.1 ▸ NewClosed_refl env c
  | cons s rest ih =>
    intro c acc c2 deps h
    simp only [loadDepsWith] at h
    split at h
    · simp at h
    · next rp hrp =>
      split at h
      · next c1 key heq =>
        refine NewClosed_trans env (hrec rp c c1 key heq) (ih c1 (key :: acc) c2 deps h) ?_
        intro t ht
        have hx := loadDepsWith_mono hmono env self rest c1 (key :: acc) t ht
        rw [h] at hx
        exact hx
      · simp at h

/-- Every path that a successful `createModule` newly inserts into the cache
passed the loader dispatch and had all of its resolved import targets loaded:
the cache additions are closed under resolved import edges. -/
theorem createModule_newClosed (env : Env) :
    ∀ (fuel : Nat) (p : String) (c c2 : Cache) (k : String),
      createModule env fuel p c = (c2, .ok k) → NewClosed env c c2 := by
  intro fuel
  induction fuel with
  | zero =>
    intro p c c2 k h
    simp [createModule] at h
  | succ fuel ih =>
    intro p c c2 k h
    simp only [createModule] at h
    split at h
    · simp only [Prod.mk.injEq, Except.ok.injEq] at h
      obtain ⟨rfl, rfl⟩ := h
      exact NewClosed_refl env c
    · split at h
      · simp at h
      · next hcss =>
        split at h
        · simp at h
        · next raw hraw =>
          simp only [Prod.mk.injEq, Except.ok.injEq] at h
          obtain ⟨rfl, rfl⟩ := h
          intro q hq0 hq2
          rcases cacheHas_cacheSet.mp hq2 with hq | rfl
          · rw [hq0] at hq
            cases hq
          · refine ⟨by simp [hcss], ?_⟩
            intro t htmem
            rw [show envTargets env q = [] from by simp [envTargets, hcss]] at htmem
            cases htmem
      · next hjs =>
        split at h
        · simp at h
        · next raw hraw =>
          split at h
          · simp at h
          · next prog hparse =>
            split at h
            · simp at h
            · next c3 deps hloop =>
              simp only [Prod.mk.injEq, Except.ok.injEq] at h
              obtain ⟨rfl, rfl⟩ := h
              have hloopC : NewClosed env (cacheSet c p ⟨.js, p, raw, prog, []⟩) c3 :=
                loadDepsWith_newClosed env p (createModule_mono env fuel)
                  (fun a b d e hh => ih a b d e hh) (importSources prog)
                  (cacheSet c p ⟨.js, p, raw, prog, []⟩) [] c3 deps hloop
              have hres := loadDepsWith_ok_resolved (createModule_mono env fuel)
                (fun a b d e hh => (createModule_ok env fuel a b d e hh).2) env p
                (importSources prog) (cacheSet c p ⟨.js, p, raw, prog, []⟩) [] c3 deps hloop
              intro q hq0 hq2
              by_cases hqp : q = p
              · subst hqp
                refine ⟨by simp [hjs], ?_⟩
                intro t htmem
                have htm : t ∈ (importSources prog).filterMap (resolveRequest env q) := by
                  rw [show envTargets env q
                      = (importSources prog).filterMap (resolveRequest env q) from by
                    simp [envTargets, hjs, hraw, hparse]] at htmem
                  exact htmem
                obtain ⟨src, hsrcmem, hsrceq⟩ := List.mem_filterMap.mp htm
                obtain ⟨rp, hrp, hrpc⟩ := hres src hsrcmem
                rw [hrp] at hsrceq
                injection hsrceq with hteq
                exact cacheHas_cacheSet.mpr (Or.inl (hteq ▸ hrpc))
              · have hq3 : cacheHas c3 q = true := by
                  rcases cacheHas_cacheSet.mp hq2 with hx | hx
                  · exact hx
                  · exact absurd hx hqp
                have hq1 : cacheHas (cacheSet c p ⟨.js, p, raw, prog, []⟩) q = false := by
                  cases hx : cacheHas (cacheSet c p ⟨.js, p, raw, prog, []⟩) q with
                  | false => rfl
                  | true =>
                    rcases cacheHas_cacheSet.mp hx with h3 | h4
                    · rw [hq0] at h3
                      cases h3
                    · exact absurd h4 hqp
                obtain ⟨hl, ht⟩ := hloopC q hq1 hq3
                exact ⟨hl, fun t htmem => cacheHas_cacheSet.mpr (Or.inl (ht t htmem))⟩

/-- A load cannot succeed while a path with an unregistered extension is
reachable from the requested path through resolved import edges over
initially uncached nodes: each chain node would end up cached (its
predecessor's targets are loaded), but an unsupported path never passes the
loader dispatch, so it never enters the cache. -/
theorem createModule_reach_unsupported (env : Env) (fuel : Nat) (p b : String)
    (c c2 : Cache) (k : String) (h : createModule env fuel p c = (c2, .ok k))
    (hreach : UncachedReach env c p b)
    (hbad : MODULE_LOADERS (extname b) = none) : False := by
  have hclosed : NewClosed env c c2 := createModule_newClosed env fuel p c c2 k h
  have hp2 : cacheHas c2 p = true := (createModule_ok env fuel p c c2 k h).2
  have aux : ∀ x y, UncachedReach env c x y → MODULE_LOADERS (extname y) = none →
      cacheHas c2 x = true → False := by
    intro x y hx
    induction hx with
    | refl z hz =>
      intro hbadz hz2
      exact (hclosed z hz hz2).1 hbadz
    | step z q r hz ht hr ihq =>
      intro hbadr hz2
      exact ihq hbadr ((hclosed z hz hz2).2 q ht)
  exact aux p b hreach hbad hp2

/-- C7 (amended): an unregistered extension is fatal wherever it occurs.
(i) Loading *any* file path whose extension has no registered loader fails
with the `Unsupported extension "<ext>".` error — whose message names the
extension but *not* the offending path (see
`c7_unsupported_extension_counterexample`) — leaving the cache unchanged;
(ii) any error of the graph-building phase aborts the whole build with that
error and nothing is written; (iii) hence a build whose entry *reaches* a
path with an unregistered extension through resolved import edges (the entry
itself, or any imported dependency, direct or transitive) cannot load its
graph: the build aborts with an error and writes no artifacts. -/
theorem c7_unsupported_extension (env : Env) (fuel : Nat) (input : BuildInput) (c : Cache) :
    (∀ (p : String) (c0 : Cache) (f : Nat), cacheHas c0 p = false →
      MODULE_LOADERS (extname p) = none →
      createModule env (f + 1) p c0
          = (c0, .error (.unsupported (unsupportedMsg (extname p)))) ∧
      strContains (unsupportedMsg (extname p)) (extname p) = true) ∧
    (∀ (c1 : Cache) (e : BuildErr),
      createDependencyGraph env fuel input.entryFile c = (c1, .error e) →
      build env fuel input c = (c1, .error e) ∧ buildWrites env fuel input c = []) ∧
    (∀ b : String, UncachedReach env c input.entryFile b →
      MODULE_LOADERS (extname b) = none →
      ∃ (c1 : Cache) (e : BuildErr), build env fuel input c = (c1, .error e) ∧
        buildWrites env fuel input c = []) := by
  have part2 : ∀ (c1 : Cache) (e : BuildErr),
      createDependencyGraph env fuel input.entryFile c = (c1, .error e) →
      build env fuel input c = (c1, .error e) ∧ buildWrites env fuel input c = [] := by
    intro c1 e hg
    have hb : build env fuel input c = (c1, .error e) := by
      simp [build, hg]
    exact ⟨hb, by simp [buildWrites, hb]⟩
  refine ⟨?_, part2, ?_⟩
  · intro p c0 f hmiss hldr
    have hmiss2 : ¬ cacheHas c0 p = true := by simp [hmiss]
    refine ⟨by simp [createModule, hmiss2, hldr], ?_⟩
    show strContains ("Unsupported extension \"" ++ extname p ++ "\".") (extname p) = true
    exact strContains_append_self _ _ _
  · intro b hreach hbad
    rcases hcd : createDependencyGraph env fuel input.entryFile c with ⟨c1, r⟩
    cases r with
    | error e => exact ⟨c1, e, part2 c1 e hcd⟩
    | ok k =>
      exact (createModule_reach_unsupported env fuel input.entryFile b c c1 k hcd
        hreach hbad).elim

/-- Witness for C7 at `envSvgDep`: the entry `/a.js` is itself a supported
script module, but its *import* `./x.svg` resolves to `/x.svg`, whose
extension has no loader; loading `/x.svg` directly yields the
unsupported-extension error, and the whole build aborts with no writes. -/
theorem c7_unsupported_extension_witness :
    (cacheHas ([] : Cache) "/x.svg" = false ∧ MODULE_LOADERS (extname "/x.svg") = none ∧
      UncachedReach envSvgDep [] "/a.js" "/x.svg") ∧
    (createModule envSvgDep 1 "/x.svg" []
        = ([], .error (.unsupported (unsupportedMsg ".svg"))) ∧
      strContains (unsupportedMsg ".svg") ".svg" = true) ∧
    (∃ (c1 : Cache) (e : BuildErr), build envSvgDep 2 inputSvgDep [] = (c1, .error e) ∧
      buildWrites envSvgDep 2 inputSvgDep [] = []) := by
  have hreach : UncachedReach envSvgDep [] "/a.js" "/x.svg" :=
    .step "/a.js" "/x.svg" "/x.svg" rfl (List.mem_singleton.mpr rfl)
      (.refl "/x.svg" rfl)
  refine ⟨⟨rfl, rfl, hreach⟩, ?_, ?_⟩
  · exact (c7_unsupported_extension envSvgDep 2 inputSvgDep []).1 "/x.svg" [] 0 rfl rfl
  · exact (c7_unsupported_extension envSvgDep 2 inputSvgDep []).2.2 "/x.svg" hreach rfl

/-- Counterexample for C7 as stated: the thrown message for the entry
`/x.svg` names only the extension — it does not contain the offending
path. -/
theorem c7_unsupported_extension_counterexample :
    (build envEmpty 1 inputSvg []).2
        = .error (.unsupported "Unsupported extension \".svg\".") ∧
    strContains "Unsupported extension \".svg\"." inputSvg.entryFile = false :=
  ⟨rfl, rfl⟩

/-! ## HTML emission (C9) -/

/-- `replaceFirstL` on a string split around its first occurrence of the
pattern replaces exactly that occurrence: if the pattern matches at no
position inside the prefix, the prefix and suffix are preserved. -/
theorem replaceFirstL_split (pat rep post : List Char) (hpat : pat ≠ []) :
    ∀ pre : List Char,
      (∀ n, n < pre.length → listIsPre pat (pre.drop n ++ pat ++ post) = false) →
      replaceFirstL pat rep (pre ++ pat ++ post) = pre ++ rep ++ post := by
  intro pre
  induction pre with
  | nil =>
    intro _
    obtain ⟨p, ps, rfl⟩ := List.exists_cons_of_ne_nil hpat
    have hsplit : ([] : List Char) ++ (p :: ps) ++ post = p :: (ps ++ post) := by
      simp [List.cons_append]
    rw [hsplit]
    simp only [replaceFirstL]
    rw [if_pos (by
      have := listIsPre_append_self (p :: ps) post
      simpa [List.cons_append] using this)]
    have hdrop : List.drop (p :: ps).length (p :: (ps ++ post)) = post := by
      rw [show p :: (ps ++ post) = (p :: ps) ++ post from by simp [List.cons_append]]
      exact List.drop_left _ _
    rw [hdrop]
    simp
  | cons a pre2 ih =>
    intro h
    have h0 : listIsPre pat (a :: (pre2 ++ (pat ++ post))) = false := by
      have h00 := h 0 (Nat.succ_pos _)
      simpa [List.cons_append, List.append_assoc] using h00
    have hrest : ∀ n, n < pre2.length → listIsPre pat (pre2.drop n ++ pat ++ post) = false := by
      intro n hn
      have := h (n + 1) (Nat.succ_lt_succ hn)
      simpa [List.drop_succ_cons] using this
    have hgoal : replaceFirstL pat rep (a :: (pre2 ++ (pat ++ post)))
        = a :: (pre2 ++ (rep ++ post)) := by
      simp only [replaceFirstL]
      rw [if_neg (by simp [h0])]
      rw [show pre2 ++ (pat ++ post) = pre2 ++ pat ++ post from (List.append_assoc _ _ _).symm]
      rw [ih hrest]
      simp [List.append_assoc]
    calc replaceFirstL pat rep ((a :: pre2) ++ pat ++ post)
        = replaceFirstL pat rep (a :: (pre2 ++ (pat ++ post))) := by
          simp [List.cons_append, List.append_assoc]
      _ = a :: (pre2 ++ (rep ++ post)) := hgoal
      _ = (a :: pre2) ++ rep ++ post := by simp [List.cons_append, List.append_assoc]

/-- String-level form of `replaceFirstL_split`. -/
theorem replaceFirst_split (pre pat post rep : String) (hpat : pat.data ≠ [])
    (h : ∀ n, n < pre.data.length →
      listIsPre pat.data (pre.data.drop n ++ pat.data ++ post.data) = false) :
    replaceFirst (pre ++ pat ++ post) pat rep = pre ++ rep ++ post := by
  have hdata : replaceFirstL pat.data rep.data (pre ++ pat ++ post).data
      = (pre ++ rep ++ post).data := by
    rw [strData_append, strData_append, strData_append, strData_append]
    exact replaceFirstL_split pat.data rep.data post.data hpat pre.data h
  show String.mk (replaceFirstL pat.data rep.data (pre ++ pat ++ post).data)
      = pre ++ rep ++ post
  rw [hdata]

/-- C9 (amended): the HTML template is consumed *unconditionally*.  When no
template path is supplied, a build whose graph and bundle succeed still fails
(the `fs.readFileSync(undefined)` TypeError) and emits nothing — not even the
bundle script (see `c9_html_emission_counterexample`).  When a template path
is supplied and its content splits as `pre ++ "</body>" ++ post` with no
match of `</body>` starting inside `pre`, the build succeeds and emits the
bundle artifacts followed by `index.html`, which equals the template with the
`<script src="/<name>">` tags (one per emitted file, in emission order)
inserted immediately before that first closing-body marker. -/
theorem c9_html_emission (env : Env) (fuel : Nat) (input : BuildInput) (c cg c2 : Cache)
    (root : String) (outs : List OutputFile)
    (hg : createDependencyGraph env fuel input.entryFile c = (cg, .ok root))
    (hb : bundle cg fuel root = .ok (c2, outs)) :
    (input.htmlTemplatePath = none → build env fuel input c = (c2, .error .invalidArg)) ∧
    (∀ tp pre post : String, input.htmlTemplatePath = some tp →
      envRead env tp = some (pre ++ "</body>" ++ post) →
      (∀ n, n < pre.data.length →
        listIsPre "</body>".data (pre.data.drop n ++ "</body>".data ++ post.data) = false) →
      build env fuel input c
        = (c2, .ok (outs ++ [⟨"index.html",
            pre ++ (scriptTagsFor outs ++ "</body>") ++ post⟩]))) := by
  have hstepE : ∀ e, generateHTMLTemplate env input.htmlTemplatePath outs = .error e →
      build env fuel input c = (c2, .error e) := by
    intro e hh
    simp only [build, hg, hb, hh]
  have hstepO : ∀ f, generateHTMLTemplate env input.htmlTemplatePath outs = .ok f →
      build env fuel input c = (c2, .ok (outs ++ [f])) := by
    intro f hh
    simp only [build, hg, hb, hh]
  constructor
  · intro hnone
    exact hstepE .invalidArg (by simp [generateHTMLTemplate, hnone])
  · intro tp pre post htp hread hfree
    refine hstepO _ ?_
    simp only [generateHTMLTemplate, htp, hread]
    rw [replaceFirst_split pre "</body>" post (scriptTagsFor outs ++ "</body>")
      (by decide) hfree]

/-- Witness for C9 at `envA` with the template `/t.html`. -/
theorem c9_html_emission_witness :
    (createDependencyGraph envA 2 inputA.entryFile [] = (graphA, .ok "/e.js") ∧
      bundle graphA 2 "/e.js" = .ok (bundleA.1, bundleA.2) ∧
      inputA.htmlTemplatePath = some "/t.html" ∧
      envRead envA "/t.html" = some ("<html><body>" ++ "</body>" ++ "</html>")) ∧
    build envA 2 inputA []
      = (bundleA.1, .ok (bundleA.2 ++ [⟨"index.html",
          "<html><body>" ++ (scriptTagsFor bundleA.2 ++ "</body>") ++ "</html>"⟩])) :=
  ⟨⟨rfl, rfl, rfl, rfl⟩,
    (c9_html_emission envA 2 inputA [] graphA bundleA.1 "/e.js" bundleA.2 rfl rfl).2
      "/t.html" "<html><body>" "</html>" rfl rfl (by decide)⟩

/-- Counterexample for C9 as stated ("always emits the bundle script
artifact", HTML "only if a template path is supplied"): with no template
path, the same entry whose graph bundles successfully makes the whole build
fail, and *no* artifact — not even the bundle script — is written. -/
theorem c9_html_emission_counterexample :
    (build envA 2 inputNoHtml []).2 = .error .invalidArg ∧
    buildWrites envA 2 inputNoHtml [] = [] ∧
    bundle graphA 2 "/e.js" = .ok (bundleA.1, bundleA.2) :=
  ⟨rfl, rfl, rfl⟩

end Bundler
